import Mathlib

/-!
# Verification of the PS1 structural parser / round-trip editor

Shallow embedding of `src/utils/ps1_parser.py` (class `PS1Parser`) and the
pure ordering logic of `src/utils/powershell_editor.py` (`list_versions`).
Lines are modelled as `List String`; the deterministic regular expressions of
the source are embedded as executable character-list scanners with the exact
left-to-right, first-match semantics of the Python `re` module on these
patterns (each pattern used by the source is backtracking-free on its
alphabet, so the scanners below are exact).  Replacement templates from
`re.sub` are inserted literally.
-/

namespace PS1

abbrev Chars := List Char

/-- Python regex `\s` on the characters that can occur in a split line. -/
def isPySpace (c : Char) : Bool :=
  c = ' ' || c = '\t' || c = '\n' || c = '\r' || c = '\x0b' || c = '\x0c'

/-- Python regex `\w` (ASCII range): letters, digits, underscore. -/
def isWordChar (c : Char) : Bool := c.isAlphanum || c = '_'

/-- A single or double quote, i.e. the character class in `['"]`. -/
def isQuoteChar (c : Char) : Bool := c = '\x27' || c = '"'

/-- Python `str.strip()` on a list of characters. -/
def pyStripChars (cs : Chars) : Chars :=
  ((cs.dropWhile isPySpace).reverse.dropWhile isPySpace).reverse

/-- Python `str.strip()`. -/
def pyStrip (s : String) : String := ⟨pyStripChars s.data⟩

/-- Python `str.startswith(t)`. -/
def strStarts (s t : String) : Bool := t.data.isPrefixOf s.data

/-- `ScriptParameter` dataclass of `ps1_parser.py`. -/
structure ScriptParameter where
  name : String
  value : String
  line_number : Nat
  parameter_type : String
  section_tag : String
deriving Repr, DecidableEq

/-- `ScriptSection` dataclass of `ps1_parser.py`. -/
structure ScriptSection where
  name : String
  start_line : Nat
  end_line : Nat
  enabled : Bool
  description : String
deriving Repr, DecidableEq

/-- `re.match(r'\s*(\w+)\s*=\s*[\x27"]([^\x27"]*)[\x27"]', line)`:
the String shape of `_parse_variable_line`, returning name and value. -/
def matchStr (cs : Chars) : Option (Chars × Chars) :=
  if ((cs.dropWhile isPySpace).takeWhile isWordChar).isEmpty then none else
  match ((cs.dropWhile isPySpace).dropWhile isWordChar).dropWhile isPySpace with
  | c :: r2 =>
    if c = '=' then
      match r2.dropWhile isPySpace with
      | q :: r3 =>
        if isQuoteChar q then
          match r3.dropWhile (fun c => !isQuoteChar c) with
          | _ :: _ => some ((cs.dropWhile isPySpace).takeWhile isWordChar,
                            r3.takeWhile (fun c => !isQuoteChar c))
          | [] => none
        else none
      | [] => none
    else none
  | [] => none

/-- `re.match(r'\s*(\w+)\s*=\s*(\d+)', line)`: the Number shape. -/
def matchNum (cs : Chars) : Option (Chars × Chars) :=
  if ((cs.dropWhile isPySpace).takeWhile isWordChar).isEmpty then none else
  match ((cs.dropWhile isPySpace).dropWhile isWordChar).dropWhile isPySpace with
  | c :: r2 =>
    if c = '=' then
      if ((r2.dropWhile isPySpace).takeWhile (·.isDigit)).isEmpty then none
      else some ((cs.dropWhile isPySpace).takeWhile isWordChar,
                 (r2.dropWhile isPySpace).takeWhile (·.isDigit))
    else none
  | [] => none

/-- `re.match(r'\s*(\w+)\s*=\s*@\((.*?)\)', line)`: the Array shape
(the lazy group stops at the first `)`, and `.` cannot cross a newline). -/
def matchArr (cs : Chars) : Option (Chars × Chars) :=
  if ((cs.dropWhile isPySpace).takeWhile isWordChar).isEmpty then none else
  match ((cs.dropWhile isPySpace).dropWhile isWordChar).dropWhile isPySpace with
  | c :: r2 =>
    if c = '=' then
      match r2.dropWhile isPySpace with
      | a :: r3 =>
        if a = '@' then
          match r3 with
          | b :: r4 =>
            if b = '(' then
              match r4.dropWhile (fun c => c ≠ ')' && c ≠ '\n') with
              | d :: _ =>
                if d = ')' then
                  some ((cs.dropWhile isPySpace).takeWhile isWordChar,
                        r4.takeWhile (fun c => c ≠ ')' && c ≠ '\n'))
                else none
              | [] => none
            else none
          | [] => none
        else none
      | [] => none
    else none
  | [] => none

/-- `re.match(r'\s*(\w+)\s*=\s*\$(true|false)', line, re.IGNORECASE)`:
the Boolean shape; the captured value keeps the original casing. -/
def matchBool (cs : Chars) : Option (Chars × Chars) :=
  if ((cs.dropWhile isPySpace).takeWhile isWordChar).isEmpty then none else
  match ((cs.dropWhile isPySpace).dropWhile isWordChar).dropWhile isPySpace with
  | c :: r2 =>
    if c = '=' then
      match r2.dropWhile isPySpace with
      | d :: r3 =>
        if d = '$' then
          if (r3.take 4).map Char.toLower = "true".data then
            some ((cs.dropWhile isPySpace).takeWhile isWordChar, r3.take 4)
          else if (r3.take 5).map Char.toLower = "false".data then
            some ((cs.dropWhile isPySpace).takeWhile isWordChar, r3.take 5)
          else none
        else none
      | [] => none
    else none
  | [] => none

/-- `PS1Parser._parse_variable_line`: the four shapes tried in source order
(String, Number, Array, Boolean), first match wins. -/
def parseVariableLine (line : String) (lineNumber : Nat) (sectionName : String) :
    Option ScriptParameter :=
  match matchStr line.data with
  | some (n, v) => some ⟨⟨n⟩, ⟨v⟩, lineNumber, "string", sectionName⟩
  | none =>
  match matchNum line.data with
  | some (n, v) => some ⟨⟨n⟩, ⟨v⟩, lineNumber, "number", sectionName⟩
  | none =>
  match matchArr line.data with
  | some (n, v) => some ⟨⟨n⟩, ⟨v⟩, lineNumber, "array", sectionName⟩
  | none =>
  match matchBool line.data with
  | some (n, v) => some ⟨⟨n⟩, ⟨v⟩, lineNumber, "boolean", sectionName⟩
  | none => none

/-- `re.match(r'^\$adtSession\s*=\s*@\x7b', line)`: the session-block entry
trigger of `_parse_session_variables` (the fixed name `$adtSession`). -/
def entryMatch (line : String) : Bool :=
  if ("$adtSession".data).isPrefixOf line.data then
    match (line.data.drop 11).dropWhile isPySpace with
    | c1 :: r =>
      if c1 = '=' then
        match r.dropWhile isPySpace with
        | c2 :: r2 =>
          if c2 = '@' then
            match r2 with
            | c3 :: _ => c3 = '\x7b'
            | [] => false
          else false
        | [] => false
      else false
    | [] => false
  else false

/-- The loop body of `_parse_session_variables`: `i` is the index of the head
line, `inB` the `in_session_block` flag. -/
def sessionAux : List String → Nat → Bool → List ScriptParameter
  | [], _, _ => []
  | l :: ls, i, inB =>
    if entryMatch l then sessionAux ls (i + 1) true
    else if inB && pyStrip l = "\x7d" then sessionAux ls (i + 1) false
    else if inB then
      match parseVariableLine l i "variables" with
      | some p => p :: sessionAux ls (i + 1) true
      | none => sessionAux ls (i + 1) true
    else sessionAux ls (i + 1) false

/-- `PS1Parser._parse_session_variables`. -/
def sessionParams (lines : List String) : List ScriptParameter :=
  sessionAux lines 0 false

/-- The scheme alternation `(https?://|ftp://)` of the URL pattern. -/
def schemeAt (cs : Chars) : Option (Chars × Chars) :=
  if ("https://".data).isPrefixOf cs then some ("https://".data, cs.drop 8)
  else if ("http://".data).isPrefixOf cs then some ("http://".data, cs.drop 7)
  else if ("ftp://".data).isPrefixOf cs then some ("ftp://".data, cs.drop 6)
  else none

/-- One anchored attempt of the URL pattern
`(\$\w+)\s*=\s*[\x27"]((https?://|ftp://)[^\x27"]+)[\x27"]`,
returning variable name (with sigil) and URL value. -/
def urlMatchAt (cs : Chars) : Option (Chars × Chars) :=
  match cs with
  | c0 :: cs1 =>
    if c0 = '$' then
      if (cs1.takeWhile isWordChar).isEmpty then none else
      match (cs1.dropWhile isWordChar).dropWhile isPySpace with
      | c :: r2 =>
        if c = '=' then
          match r2.dropWhile isPySpace with
          | q :: r3 =>
            if isQuoteChar q then
              match schemeAt r3 with
              | some (sch, r4) =>
                if (r4.takeWhile (fun c => !isQuoteChar c)).isEmpty then none
                else match r4.dropWhile (fun c => !isQuoteChar c) with
                  | _ :: _ => some ('$' :: cs1.takeWhile isWordChar,
                                    sch ++ r4.takeWhile (fun c => !isQuoteChar c))
                  | [] => none
              | none => none
            else none
          | [] => none
        else none
      | [] => none
    else none
  | [] => none

/-- `url_pattern.search(line)`: leftmost successful attempt. -/
def urlSearch : Chars → Option (Chars × Chars)
  | [] => none
  | c :: cs =>
    match urlMatchAt (c :: cs) with
    | some r => some r
    | none => urlSearch cs

/-- The loop body of `PS1Parser._parse_urls`. -/
def urlAux : List String → Nat → List ScriptParameter
  | [], _ => []
  | l :: ls, i =>
    match urlSearch l.data with
    | some (n, u) => ⟨⟨n⟩, ⟨u⟩, i, "url", "install"⟩ :: urlAux ls (i + 1)
    | none => urlAux ls (i + 1)

/-- `PS1Parser._parse_urls`. -/
def urlParams (lines : List String) : List ScriptParameter := urlAux lines 0

/-- One anchored attempt of `##\s*MARK:`, returning the rest of the line. -/
def matchMarkAt (cs : Chars) : Option Chars :=
  match cs with
  | a :: b :: r =>
    if a = '#' && b = '#' then
      let r1 := r.dropWhile isPySpace
      if ("MARK:".data).isPrefixOf r1 then some (r1.drop 5) else none
    else none
  | _ => none

/-- `re.search(r'##\s*MARK:', line)` on a character list. -/
def searchMarkFrom : Chars → Bool
  | [] => false
  | c :: cs => (matchMarkAt (c :: cs)).isSome || searchMarkFrom cs

/-- `re.search(r'##\s*MARK:', line)`. -/
def searchMark (line : String) : Bool := searchMarkFrom line.data

/-- One anchored attempt of a section-marker pattern
`##\s*MARK:\s*<name>` (with `\s*$` appended when `anchored`). -/
def sectionPatAt (nm : Chars) (anchored : Bool) (cs : Chars) : Bool :=
  match matchMarkAt cs with
  | some r =>
    let r1 := r.dropWhile isPySpace
    nm.isPrefixOf r1 && (!anchored || ((r1.drop nm.length).dropWhile isPySpace).isEmpty)
  | none => false

/-- `re.search` of a section-marker pattern over a whole line. -/
def searchSectionPat (nm : Chars) (anchored : Bool) : Chars → Bool
  | [] => false
  | c :: cs => sectionPatAt nm anchored (c :: cs) || searchSectionPat nm anchored cs

/-- The fixed pattern table of `_parse_sections`:
(marker literal, end-anchored?, section name, description). -/
def sectionPatterns : List (String × Bool × String × String) :=
  [ ("Pre-Install", false, "Pre-Install", "Предварительная установка")
  , ("Install", true, "Install", "Основная установка")
  , ("Post-Install", false, "Post-Install", "Завершение установки")
  , ("Pre-Uninstall", false, "Pre-Uninstall", "Подготовка к удалению")
  , ("Uninstall", true, "Uninstall", "Удаление")
  , ("Post-Uninstall", false, "Post-Uninstall", "Завершение удаления") ]

/-- The loop body of `PS1Parser._find_section_end`, iterating over the index
sequence `range(start_line + 1, len(self.lines))`: a `## MARK:` line returns
the previous index, a line whose stripped text starts with `\x7d` returns its
own index when `i > start_line + 5`, and exhaustion returns the last index. -/
def findSectionEndFrom (lines : List String) (s : Nat) : List Nat → Nat
  | [] => lines.length - 1
  | i :: is =>
    let line := lines.getD i ""
    if searchMark line then i - 1
    else if strStarts (pyStrip line) "\x7d" && decide (s + 5 < i) then i
    else findSectionEndFrom lines s is

/-- `PS1Parser._find_section_end`. -/
def findSectionEnd (lines : List String) (s : Nat) : Nat :=
  findSectionEndFrom lines s (List.range' (s + 1) (lines.length - (s + 1)))

/-- The counting loop of `_is_section_enabled`: accumulates
`(total_count, commented_count)` over the given indices. -/
def enabledCountsAux (lines : List String) : List Nat → Nat × Nat → Nat × Nat
  | [], acc => acc
  | i :: is, (tot, com) =>
    let l := pyStrip (lines.getD i "")
    if l ≠ "" && !strStarts l "##" then
      enabledCountsAux lines is (tot + 1, com + (if strStarts l "#" then 1 else 0))
    else enabledCountsAux lines is (tot, com)

/-- `PS1Parser._is_section_enabled`: counting over
`range(start_line, min(end_line, start_line + 10))`; the float test
`commented_count < total_count / 2` is `2 * commented < total` exactly. -/
def isSectionEnabled (lines : List String) (s e : Nat) : Bool :=
  if (enabledCountsAux lines (List.range' s (min e (s + 10) - s)) (0, 0)).1 = 0 then true
  else decide (2 * (enabledCountsAux lines (List.range' s (min e (s + 10) - s)) (0, 0)).2
    < (enabledCountsAux lines (List.range' s (min e (s + 10) - s)) (0, 0)).1)

/-- The inner loop of `_parse_sections` for one pattern. -/
def sectionsForPat (lines : List String) (nm : String) (anchored : Bool)
    (secName desc : String) : List ScriptSection :=
  (List.range lines.length).filterMap (fun i =>
    if searchSectionPat nm.data anchored (lines.getD i "").data then
      some ⟨secName, i, findSectionEnd lines i,
        isSectionEnabled lines i (findSectionEnd lines i), desc⟩
    else none)

/-- `PS1Parser._parse_sections`. -/
def parseSections (lines : List String) : List ScriptSection :=
  sectionPatterns.flatMap (fun q => sectionsForPat lines q.1 q.2.1 q.2.2.1 q.2.2.2)

/-- The scan-time state of a `PS1Parser` object after `parse()`. -/
structure ParserState where
  lines : List String
  parameters : List ScriptParameter
  sections : List ScriptSection
  urls : List ScriptParameter
deriving Repr, DecidableEq

/-- `parse()` on an already-split line store:
session variables first, then URLs, then sections. -/
def parseLines (lines : List String) : ParserState :=
  { lines := lines
  , parameters := sessionParams lines ++ urlParams lines
  , sections := parseSections lines
  , urls := urlParams lines }

/-- `PS1Parser(script_content)` followed by `parse()` (Python
`script_content.split('\n')` equals `String.splitOn "\n"`). -/
def parseState (content : String) : ParserState :=
  parseLines (content.splitOn "\n")

/-- `get_modified_content`: join the line store with `\n`. -/
def getModifiedContent (st : ParserState) : String :=
  String.intercalate "\n" st.lines

/-- Scan for the closing quote of the lazy group `.*?` inside
`([\x27"]).*?([\x27"])`: the nearest following quote, never across a newline. -/
def quoteSpanAfter : Chars → Option Chars
  | [] => none
  | c :: cs =>
    if isQuoteChar c then some cs
    else if c = '\n' then none
    else quoteSpanAfter cs

/-- `re.sub(r'([\x27"]).*?([\x27"])', "\x27" + new_value + "\x27", old_line,
count=1)`: the String/Url rewrite of `update_parameter`. -/
def subQuoted (v : Chars) : Chars → Chars
  | [] => []
  | c :: cs =>
    if isQuoteChar c then
      match quoteSpanAfter cs with
      | some rest => '\x27' :: (v ++ '\x27' :: rest)
      | none => c :: subQuoted v cs
    else c :: subQuoted v cs

/-- `re.sub(r'=\s*\d+', '= ' + new_value, old_line)`: the Number rewrite of
`update_parameter`; note the source passes no `count`, so every occurrence
on the line is replaced. -/
def subNumAll (v : Chars) : Chars → Chars
  | [] => []
  | c :: cs =>
    if c = '=' then
      if ((cs.dropWhile isPySpace).takeWhile (·.isDigit)).isEmpty then
        '=' :: subNumAll v cs
      else '=' :: ' ' :: (v ++ subNumAll v
        ((cs.dropWhile isPySpace).drop
          ((cs.dropWhile isPySpace).takeWhile (·.isDigit)).length))
    else c :: subNumAll v cs
termination_by cs => cs.length
decreasing_by
  all_goals simp only [List.length_drop, List.length_cons]
  all_goals try omega
  all_goals (have h1 := (List.dropWhile_sublist isPySpace (l := cs)).length_le; omega)

/-- Scan for the `)` closing `@\((.*?)\)`. -/
def parenSpanAfter : Chars → Option Chars
  | [] => none
  | c :: cs =>
    if c = ')' then some cs
    else if c = '\n' then none
    else parenSpanAfter cs

/-- `re.sub(r'@\((.*?)\)', '@(' + new_value + ')', old_line)`: the Array
rewrite; again every occurrence is replaced. -/
def subArrAll (v : Chars) : Chars → Chars
  | [] => []
  | c :: cs =>
    if c = '@' then
      match cs with
      | b :: cs2 =>
        if b = '(' then
          match hps : parenSpanAfter cs2 with
          | some rest => '@' :: '(' :: (v ++ ')' :: subArrAll v rest)
          | none => '@' :: subArrAll v (b :: cs2)
        else '@' :: subArrAll v (b :: cs2)
      | [] => ['@']
    else c :: subArrAll v cs
termination_by cs => cs.length
decreasing_by
  all_goals simp only [List.length_cons]
  all_goals try omega
  all_goals
    (have hlt : ∀ (l r : Chars), parenSpanAfter l = some r → r.length < l.length := by
      intro l
      induction l with
      | nil => intro r hr; simp [parenSpanAfter] at hr
      | cons a as ih =>
        intro r hr
        simp only [parenSpanAfter] at hr
        split at hr
        · cases hr; simp
        · split at hr
          · cases hr
          · have := ih r hr; simp; omega
     have := hlt _ _ hps
     omega)

/-- `re.sub(r'\$(true|false)', '$' + new_value, old_line, flags=re.IGNORECASE)`:
the Boolean rewrite; every occurrence is replaced, case-insensitively. -/
def subBoolAll (v : Chars) : Chars → Chars
  | [] => []
  | c :: cs =>
    if c = '$' then
      if (cs.take 4).map Char.toLower = "true".data then
        '$' :: (v ++ subBoolAll v (cs.drop 4))
      else if (cs.take 5).map Char.toLower = "false".data then
        '$' :: (v ++ subBoolAll v (cs.drop 5))
      else '$' :: subBoolAll v cs
    else c :: subBoolAll v cs
termination_by cs => cs.length
decreasing_by
  all_goals simp only [List.length_drop, List.length_cons]
  all_goals omega

/-- The per-kind line rewrite of `update_parameter`; `none` models the
`continue` taken on an unknown `parameter_type`. -/
def rewriteLine (ptype : String) (v : String) (old : String) : Option String :=
  if ptype = "string" || ptype = "url" then some ⟨subQuoted v.data old.data⟩
  else if ptype = "number" then some ⟨subNumAll v.data old.data⟩
  else if ptype = "array" then some ⟨subArrAll v.data old.data⟩
  else if ptype = "boolean" then some ⟨subBoolAll v.data old.data⟩
  else none

/-- The name test of `update_parameter` / `find_parameter`:
`param.name == param_name or param.name == '$' + param_name`. -/
def nameMatches (q : String) (p : ScriptParameter) : Bool :=
  p.name = q || p.name = "$" ++ q

/-- The search-and-rewrite loop of `update_parameter` over `self.parameters`:
returns the updated parameter list and line store on success. -/
def updateParamList (q v : String) : List ScriptParameter → List String →
    Option (List ScriptParameter × List String)
  | [], _ => none
  | p :: ps, lines =>
    if nameMatches q p then
      match rewriteLine p.parameter_type v (lines.getD p.line_number "") with
      | some nl => some ({ p with value := v } :: ps, lines.set p.line_number nl)
      | none =>
        match updateParamList q v ps lines with
        | some (ps2, l2) => some (p :: ps2, l2)
        | none => none
    else
      match updateParamList q v ps lines with
      | some (ps2, l2) => some (p :: ps2, l2)
      | none => none

/-- `PS1Parser.update_parameter`. -/
def updateParameter (st : ParserState) (q v : String) : Bool × ParserState :=
  match updateParamList q v st.parameters st.lines with
  | some (ps2, l2) => (true, { st with parameters := ps2, lines := l2 })
  | none => (false, st)

/-- The per-line action of `_comment_section`: prepend `    # ` when the
stripped text does not start with `#`; leave already-commented lines alone. -/
def commentLine (l : String) : String :=
  if !strStarts (pyStrip l) "#" then "    # " ++ l else l

/-- The characters of `'## MARK:'`. -/
def markChars : Chars := ['#', '#', ' ', 'M', 'A', 'R', 'K', ':']

/-- `'## MARK:' in line` (substring containment) on a character list. -/
def hasMarkSub : Chars → Bool
  | [] => false
  | c :: cs => markChars.isPrefixOf (c :: cs) || hasMarkSub cs

/-- `'## MARK:' in line`. -/
def containsMark (l : String) : Bool := hasMarkSub l.data

/-- `re.sub(r'^\s*#\s?', '', line)`: strip one leading comment token. -/
def stripCommentHead (l : String) : String :=
  match l.data.dropWhile isPySpace with
  | c :: r =>
    if c = '#' then
      match r with
      | c2 :: r2 => if isPySpace c2 then (⟨r2⟩ : String) else ⟨c2 :: r2⟩
      | [] => ""
    else l
  | [] => l

/-- The per-line action of `_uncomment_section`: strip one comment token when
the stripped text starts with `#` and the line does not contain `## MARK:`. -/
def uncommentLine (l : String) : String :=
  if strStarts (pyStrip l) "#" && !containsMark l then stripCommentHead l else l

/-- Apply a per-line transform at every index of `range(s, e + 1)`
(the loop shape shared by `_comment_section` and `_uncomment_section`; a
guard-failing iteration leaves the stored line equal to itself). -/
def mapRange (t : String → String) (lines : List String) (s e : Nat) : List String :=
  (List.range' s (e + 1 - s)).foldl (fun acc i => acc.set i (t (acc.getD i ""))) lines

/-- `PS1Parser._comment_section`. -/
def commentSection (lines : List String) (s e : Nat) : List String :=
  mapRange commentLine lines s e

/-- `PS1Parser._uncomment_section`. -/
def uncommentSection (lines : List String) (s e : Nat) : List String :=
  mapRange uncommentLine lines s e

/-- The loop of `PS1Parser.toggle_section` over `self.sections`: a section
whose name matches but whose state already equals the request is passed over
and the scan continues. -/
def toggleSectionAux (lines : List String) (nm : String) (en : Bool) :
    List ScriptSection → Option (List String × List ScriptSection)
  | [] => none
  | sec :: rest =>
    if sec.name = nm then
      if en && !sec.enabled then
        some (uncommentSection lines sec.start_line sec.end_line,
          { sec with enabled := true } :: rest)
      else if !en && sec.enabled then
        some (commentSection lines sec.start_line sec.end_line,
          { sec with enabled := false } :: rest)
      else
        match toggleSectionAux lines nm en rest with
        | some (l2, r2) => some (l2, sec :: r2)
        | none => none
    else
      match toggleSectionAux lines nm en rest with
      | some (l2, r2) => some (l2, sec :: r2)
      | none => none

/-- `PS1Parser.toggle_section`. -/
def toggleSection (st : ParserState) (nm : String) (en : Bool) : Bool × ParserState :=
  match toggleSectionAux st.lines nm en st.sections with
  | some (l2, s2) => (true, { st with lines := l2, sections := s2 })
  | none => (false, st)

/-- The mutation part of `PowerShellEditor.batch_update_parameters`: the
per-name `parser.update_parameter` calls, applied in request order, with the
per-name success results. -/
def batchUpdateParameters (st : ParserState) :
    List (String × String) → ParserState × List (String × Bool)
  | [] => (st, [])
  | (n, v) :: rest =>
    let r := updateParameter st n v
    let s := batchUpdateParameters r.2 rest
    (s.1, (n, r.1) :: s.2)

/-- A snapshot file of the Version Store as `list_versions` reads it back:
name, path, size and timestamps (`os.stat` values, as numbers). -/
structure VersionEntry where
  name : String
  path : String
  size : Nat
  modified : Nat
  created : Nat
deriving Repr, DecidableEq

/-- Code-point lexicographic strict order on character lists: exactly the
order Python uses to compare strings (and `Path` values within a directory). -/
def charsLt : Chars → Chars → Bool
  | [], [] => false
  | [], _ :: _ => true
  | _ :: _, [] => false
  | a :: as, b :: bs =>
    if a.toNat < b.toNat then true
    else if b.toNat < a.toNat then false
    else charsLt as bs

/-- Stable insertion into a name-descending list: the new element goes in
front of strictly smaller names, after greater-or-equal ones. -/
def insertDesc (x : VersionEntry) : List VersionEntry → List VersionEntry
  | [] => [x]
  | y :: ys => if charsLt x.name.data y.name.data then y :: insertDesc x ys
               else x :: y :: ys

/-- Stable descending-by-name sort (Python `sorted(..., reverse=True)` is a
stable sort; on `Path` values it compares the path strings, and within one
directory that is the filename order). -/
def sortDesc : List VersionEntry → List VersionEntry
  | [] => []
  | x :: xs => insertDesc x (sortDesc xs)

/-- `PowerShellEditor.list_versions`: the version files produced by
`versions_dir.glob("*.ps1")` are ordered by `sorted(..., reverse=True)` —
descending by filename, not by any timestamp — and returned as records. -/
def listVersions (files : List VersionEntry) : List VersionEntry :=
  sortDesc files

/-- Claim-side reading of a counted line of `_is_section_enabled`: stripped
text non-blank and not starting with the marker-comment token `##`. -/
def isCountedLine (lines : List String) (i : Nat) : Bool :=
  pyStrip (lines.getD i "") ≠ "" && !strStarts (pyStrip (lines.getD i "")) "##"

/-- Claim-side reading of a commented line: counted, and the stripped text
begins with a single comment token (`#` but, being counted, not `##`). -/
def isCommentedLine (lines : List String) (i : Nat) : Bool :=
  isCountedLine lines i && strStarts (pyStrip (lines.getD i "")) "#"

/-- The per-line stopping condition of `_find_section_end` at index `i`:
a marker-comment line, or a stripped line starting with `\x7d` when
`i > start_line + 5`. -/
def sectionEndTrigger (lines : List String) (s : Nat) (i : Nat) : Bool :=
  searchMark (lines.getD i "") ||
    (strStarts (pyStrip (lines.getD i "")) "\x7d" && decide (s + 5 < i))

/-- Classifier results for a run of consecutive lines starting at index `i`,
tagged `variables` — what the session pass records strictly inside the block. -/
def classifyLines : List String → Nat → List ScriptParameter
  | [], _ => []
  | l :: ls, i =>
    match parseVariableLine l i "variables" with
    | some p => p :: classifyLines ls (i + 1)
    | none => classifyLines ls (i + 1)

/-- A line holding two `= <digits>` occurrences:
`<X> = <D₁> ; max = <D₂>`. -/
def numLine (X D₁ D₂ : Chars) : String :=
  ⟨X ++ ' ' :: '=' :: ' ' ::
    (D₁ ++ ' ' :: ';' :: ' ' :: 'm' :: 'a' :: 'x' :: ' ' :: '=' :: ' ' :: D₂)⟩

/-- A three-line session script whose single parameter line is `numLine`. -/
def numScript (X D₁ D₂ : Chars) : List String :=
  ["$adtSession = @\x7b", numLine X D₁ D₂, "\x7d"]

/-! ## C8: version listing order -/

theorem charsLt_asymm : ∀ {a b : Chars}, charsLt a b = true → charsLt b a = false := by
  intro a
  induction a with
  | nil =>
    intro b h
    cases b with
    | nil => simp [charsLt] at h
    | cons y bs => rfl
  | cons x as ih =>
    intro b h
    cases b with
    | nil => simp [charsLt] at h
    | cons y bs =>
      simp only [charsLt] at h ⊢
      by_cases h1 : x.toNat < y.toNat
      · rw [if_neg (by omega), if_pos h1]
      · by_cases h2 : y.toNat < x.toNat
        · rw [if_neg h1, if_pos h2] at h
          exact absurd h (by simp)
        · rw [if_neg h1, if_neg h2] at h
          rw [if_neg h2, if_neg h1]
          exact ih h

theorem charsLt_negtrans : ∀ {a b c : Chars},
    charsLt a b = false → charsLt b c = false → charsLt a c = false := by
  intro a
  induction a with
  | nil =>
    intro b c hab hbc
    cases b with
    | nil =>
      cases c with
      | nil => rfl
      | cons z cs => simp [charsLt] at hbc
    | cons y bs => simp [charsLt] at hab
  | cons x as ih =>
    intro b c hab hbc
    cases b with
    | nil =>
      cases c with
      | nil => rfl
      | cons z cs => simp [charsLt] at hbc
    | cons y bs =>
      cases c with
      | nil => rfl
      | cons z cs =>
        simp only [charsLt] at hab hbc ⊢
        by_cases h1 : x.toNat < y.toNat
        · rw [if_pos h1] at hab
          exact absurd hab (by simp)
        · by_cases h2 : y.toNat < z.toNat
          · rw [if_pos h2] at hbc
            exact absurd hbc (by simp)
          · rw [if_neg h1] at hab
            rw [if_neg h2] at hbc
            by_cases h3 : y.toNat < x.toNat
            · rw [if_neg (by omega), if_pos (by omega)]
            · rw [if_neg h3] at hab
              by_cases h4 : z.toNat < y.toNat
              · rw [if_neg (by omega), if_pos (by omega)]
              · rw [if_neg h4] at hbc
                rw [if_neg (by omega), if_neg (by omega)]
                exact ih hab hbc

theorem insertDesc_perm (x : VersionEntry) : ∀ l, List.Perm (insertDesc x l) (x :: l) := by
  intro l
  induction l with
  | nil => exact List.Perm.refl _
  | cons y ys ih =>
    simp only [insertDesc]
    split
    · exact (ih.cons y).trans (List.Perm.swap x y ys)
    · exact List.Perm.refl _

theorem sortDesc_perm : ∀ l, List.Perm (sortDesc l) l := by
  intro l
  induction l with
  | nil => exact List.Perm.refl _
  | cons x xs ih => exact (insertDesc_perm x (sortDesc xs)).trans (ih.cons x)

theorem insertDesc_pairwise {x : VersionEntry} :
    ∀ {l}, l.Pairwise (fun a b => charsLt a.name.data b.name.data = false) →
      (insertDesc x l).Pairwise (fun a b => charsLt a.name.data b.name.data = false) := by
  intro l
  induction l with
  | nil => intro _; simp [insertDesc]
  | cons y ys ih =>
    intro h
    rw [List.pairwise_cons] at h
    obtain ⟨hy, hys⟩ := h
    simp only [insertDesc]
    split
    · rename_i hlt
      rw [List.pairwise_cons]
      refine ⟨?_, ih hys⟩
      intro b hb
      rcases List.mem_cons.mp ((insertDesc_perm x ys).mem_iff.mp hb) with rfl | hbys
      · exact charsLt_asymm hlt
      · exact hy b hbys
    · rename_i hnlt
      rw [Bool.not_eq_true] at hnlt
      rw [List.pairwise_cons]
      refine ⟨?_, List.pairwise_cons.mpr ⟨hy, hys⟩⟩
      intro b hb
      rcases List.mem_cons.mp hb with rfl | hbys
      · exact hnlt
      · exact charsLt_negtrans hnlt (hy b hbys)

theorem sortDesc_pairwise :
    ∀ l, (sortDesc l).Pairwise (fun a b => charsLt a.name.data b.name.data = false) := by
  intro l
  induction l with
  | nil => exact List.Pairwise.nil
  | cons x xs ih => exact insertDesc_pairwise ih

/-- Claim C8 (amended): `list_versions` returns the version records ordered
by filename descending (`sorted(..., reverse=True)` over the glob result,
with Python string comparison, i.e. code-point lexicographic order) — a
permutation of the directory's records — not by modification time; the two
orders coincide only when the filenames happen to sort by recency. -/
theorem claim_C8_amended_list_versions_order (files : List VersionEntry) :
    (listVersions files).Pairwise
      (fun a b => charsLt a.name.data b.name.data = false) ∧
      List.Perm (listVersions files) files :=
  ⟨sortDesc_pairwise files, sortDesc_perm files⟩

/-- Claim C8 counterexample: two snapshots where the alphabetically later
label belongs to the older file; `list_versions` puts the older file first,
so the adjacent pair violates most-recent-first by modification time. -/
theorem claim_C8_counterexample :
    listVersions
      [⟨"script_afix_20250102_000000.ps1", "p1", 10, 200, 50⟩,
       ⟨"script_zfix_20250101_000000.ps1", "p2", 10, 100, 40⟩] =
      [⟨"script_zfix_20250101_000000.ps1", "p2", 10, 100, 40⟩,
       ⟨"script_afix_20250102_000000.ps1", "p1", 10, 200, 50⟩]
  ∧ (VersionEntry.modified ⟨"script_zfix_20250101_000000.ps1", "p2", 10, 100, 40⟩)
      < (VersionEntry.modified ⟨"script_afix_20250102_000000.ps1", "p1", 10, 200, 50⟩) := by
  exact ⟨by decide, by decide⟩

/-! ## Lemmas: the line store never changes length under mutation -/

theorem updateParamList_length {q v : String} :
    ∀ {ps : List ScriptParameter} {lines : List String} {ps2 : List ScriptParameter}
      {l2 : List String}, updateParamList q v ps lines = some (ps2, l2) →
      l2.length = lines.length := by
  intro ps
  induction ps with
  | nil => intro lines ps2 l2 h; simp [updateParamList] at h
  | cons p ps ih =>
    intro lines ps2 l2 h
    simp only [updateParamList] at h
    split at h
    · split at h
      · cases h; simp [List.length_set]
      · split at h
        · rename_i heq; cases h; exact ih heq
        · cases h
    · split at h
      · rename_i heq; cases h; exact ih heq
      · cases h

theorem updateParameter_lines_length (st : ParserState) (q v : String) :
    ((updateParameter st q v).2).lines.length = st.lines.length := by
  unfold updateParameter
  split
  · rename_i heq; exact updateParamList_length heq
  · rfl

theorem foldl_set_length (f : List String → Nat → List String)
    (hf : ∀ acc i, (f acc i).length = acc.length) :
    ∀ (idxs : List Nat) (lines : List String),
      (idxs.foldl f lines).length = lines.length := by
  intro idxs
  induction idxs with
  | nil => intro lines; rfl
  | cons i is ih => intro lines; rw [List.foldl_cons, ih, hf]

theorem mapRange_length (t : String → String) (lines : List String) (s e : Nat) :
    (mapRange t lines s e).length = lines.length := by
  unfold mapRange
  apply foldl_set_length
  intro acc i
  simp [List.length_set]

theorem commentSection_length (lines : List String) (s e : Nat) :
    (commentSection lines s e).length = lines.length :=
  mapRange_length ..

theorem uncommentSection_length (lines : List String) (s e : Nat) :
    (uncommentSection lines s e).length = lines.length :=
  mapRange_length ..

theorem toggleSectionAux_length {lines : List String} {nm : String} {en : Bool} :
    ∀ {secs : List ScriptSection} {l2 : List String} {s2 : List ScriptSection},
      toggleSectionAux lines nm en secs = some (l2, s2) →
      l2.length = lines.length := by
  intro secs
  induction secs with
  | nil => intro l2 s2 h; simp [toggleSectionAux] at h
  | cons sec rest ih =>
    intro l2 s2 h
    simp only [toggleSectionAux] at h
    split at h
    · split at h
      · cases h; exact uncommentSection_length ..
      · split at h
        · cases h; exact commentSection_length ..
        · split at h
          · rename_i heq; cases h; exact ih heq
          · cases h
    · split at h
      · rename_i heq; cases h; exact ih heq
      · cases h

theorem toggleSection_lines_length (st : ParserState) (nm : String) (en : Bool) :
    ((toggleSection st nm en).2).lines.length = st.lines.length := by
  unfold toggleSection
  split
  · rename_i heq; exact toggleSectionAux_length heq
  · rfl

theorem batchUpdateParameters_lines_length (st : ParserState)
    (updates : List (String × String)) :
    ((batchUpdateParameters st updates).1).lines.length = st.lines.length := by
  induction updates generalizing st with
  | nil => rfl
  | cons u rest ih =>
    obtain ⟨n, v⟩ := u
    simp only [batchUpdateParameters]
    rw [ih, updateParameter_lines_length]

/-! ## C5: the enabled/disabled heuristic -/

theorem enabledCountsAux_eq (lines : List String) :
    ∀ (idxs : List Nat) (tot com : Nat),
      enabledCountsAux lines idxs (tot, com) =
        (tot + idxs.countP (isCountedLine lines),
         com + idxs.countP (isCommentedLine lines)) := by
  intro idxs
  induction idxs with
  | nil => intro tot com; rfl
  | cons i is ih =>
    intro tot com
    simp only [enabledCountsAux]
    split
    · rename_i hc
      have hcnt : isCountedLine lines i = true := hc
      rw [List.countP_cons_of_pos (isCountedLine lines) is hcnt]
      split
      · rename_i hs
        have hcom : isCommentedLine lines i = true := by
          unfold isCommentedLine
          rw [hcnt, hs]
          rfl
        rw [List.countP_cons_of_pos (isCommentedLine lines) is hcom, ih]
        simp only [Prod.mk.injEq]
        constructor <;> omega
      · rename_i hs
        rw [Bool.not_eq_true] at hs
        have hcom : isCommentedLine lines i = false := by
          unfold isCommentedLine
          rw [hs, Bool.and_false]
        rw [List.countP_cons_of_neg (isCommentedLine lines) is (by rw [hcom]; simp), ih]
        simp only [Prod.mk.injEq]
        constructor <;> omega
    · rename_i hc
      rw [Bool.not_eq_true] at hc
      have hcnt : isCountedLine lines i = false := hc
      have hcom : isCommentedLine lines i = false := by
        unfold isCommentedLine
        rw [hcnt, Bool.false_and]
      rw [List.countP_cons_of_neg (isCountedLine lines) is (by rw [hcnt]; simp),
        List.countP_cons_of_neg (isCommentedLine lines) is (by rw [hcom]; simp), ih]

/-- Claim C5: for every scanned section, the Scanner inspects at most the
first 10 lines starting at `start_line` (bounded by `end_line`), counts the
non-blank, non-marker-comment lines as `total` and, among those, the lines
beginning with a single comment token as `commented`, and reports
`enabled = true` iff `total == 0` or `commented < total / 2` (stated exactly
over the integers as `2 * commented < total`). -/
theorem claim_C5_enabled_rule (lines : List String) (s e : Nat) :
    isSectionEnabled lines s e = true ↔
      ((List.range' s (min e (s + 10) - s)).countP (isCountedLine lines) = 0 ∨
        2 * (List.range' s (min e (s + 10) - s)).countP (isCommentedLine lines) <
          (List.range' s (min e (s + 10) - s)).countP (isCountedLine lines)) := by
  unfold isSectionEnabled
  rw [enabledCountsAux_eq]
  simp only [Nat.zero_add]
  by_cases h : (List.range' s (min e (s + 10) - s)).countP (isCountedLine lines) = 0
  · simp [h]
  · simp [h]

/-! ## C4: section end determination -/

theorem findSectionEndFrom_spec (lines : List String) (s : Nat)
    (idxs : List Nat) :
    findSectionEndFrom lines s idxs =
      (match idxs.find? (sectionEndTrigger lines s) with
       | some i => if searchMark (lines.getD i "") then i - 1 else i
       | none => lines.length - 1) := by
  induction idxs with
  | nil => rfl
  | cons i is ih =>
    simp only [findSectionEndFrom]
    split
    · rename_i h1
      have ht : sectionEndTrigger lines s i = true := by
        unfold sectionEndTrigger
        rw [h1, Bool.true_or]
      rw [List.find?_cons_of_pos _ ht]
      dsimp only
      rw [if_pos h1]
    · rename_i h1
      rw [Bool.not_eq_true] at h1
      split
      · rename_i h2
        have ht : sectionEndTrigger lines s i = true := by
          unfold sectionEndTrigger
          rw [h1, h2, Bool.false_or]
        rw [List.find?_cons_of_pos _ ht]
        dsimp only
        rw [if_neg (by rw [h1]; simp)]
      · rename_i h2
        rw [Bool.not_eq_true] at h2
        have ht : sectionEndTrigger lines s i = false := by
          unfold sectionEndTrigger
          rw [h1, h2, Bool.false_or]
        rw [List.find?_cons_of_neg _ (by rw [ht]; simp), ih]

/-- Claim C4 (amended): for a section marker at line `s`, `end_line` is
determined by the first line `i` in `(s, len)` satisfying either trigger —
a marker-comment line (giving `i - 1`) or a line whose stripped text starts
with `\x7d` at index `i > s + 5`, i.e. `i ≥ s + 6` (giving `i`) — whichever
kind occurs first; if no line triggers, the last line of the document. -/
theorem claim_C4_amended_section_end (lines : List String) (s : Nat) :
    findSectionEnd lines s =
      (match (List.range' (s + 1) (lines.length - (s + 1))).find?
          (sectionEndTrigger lines s) with
       | some i => if searchMark (lines.getD i "") then i - 1 else i
       | none => lines.length - 1) :=
  findSectionEndFrom_spec ..

/-- Claim C4 counterexample: in a 7-line document with the only marker at
line 0 and a line whose trimmed text is exactly `\x7d` at index `s + 5 = 5`,
the code skips that brace (its guard requires `i > s + 5`, not `i ≥ s + 5`)
and returns the last line 6, where the claim requires 5. -/
theorem claim_C4_counterexample :
    pyStrip ((["## MARK: Install", "", "", "", "", "\x7d", ""] :
        List String).getD 5 "") = "\x7d"
  ∧ searchMark ((["## MARK: Install", "", "", "", "", "\x7d", ""] :
        List String).getD 1 "") = false
  ∧ searchMark ((["## MARK: Install", "", "", "", "", "\x7d", ""] :
        List String).getD 2 "") = false
  ∧ searchMark ((["## MARK: Install", "", "", "", "", "\x7d", ""] :
        List String).getD 3 "") = false
  ∧ searchMark ((["## MARK: Install", "", "", "", "", "\x7d", ""] :
        List String).getD 4 "") = false
  ∧ searchMark ((["## MARK: Install", "", "", "", "", "\x7d", ""] :
        List String).getD 5 "") = false
  ∧ searchMark ((["## MARK: Install", "", "", "", "", "\x7d", ""] :
        List String).getD 6 "") = false
  ∧ findSectionEnd ["## MARK: Install", "", "", "", "", "\x7d", ""] 0 = 6
  ∧ (6 : Nat) ≠ 5 := by
  decide

/-- Claim C1: for every mutation operation (`update_parameter`,
`toggle_section`, `batch_update_parameters`) applied to a scanned script, the
number of lines of the script after the mutation equals the number of lines
before it, for every parameter name, kind and new value, and for every
section toggle. -/
theorem claim_C1_line_count_invariant (content q v nm : String) (en : Bool)
    (updates : List (String × String)) :
    ((updateParameter (parseState content) q v).2).lines.length
        = (parseState content).lines.length
  ∧ ((toggleSection (parseState content) nm en).2).lines.length
        = (parseState content).lines.length
  ∧ ((batchUpdateParameters (parseState content) updates).1).lines.length
        = (parseState content).lines.length :=
  ⟨updateParameter_lines_length .., toggleSection_lines_length ..,
    batchUpdateParameters_lines_length ..⟩

/-! ## C9: disable-then-enable round trip -/

theorem foldl_set_getD (t : String → String) :
    ∀ (idxs : List Nat) (lines : List String) (i : Nat), i < lines.length →
      idxs.Nodup →
      (idxs.foldl (fun acc j => acc.set j (t (acc.getD j ""))) lines).getD i "" =
        (if i ∈ idxs then t (lines.getD i "") else lines.getD i "") := by
  intro idxs
  induction idxs with
  | nil => intro lines i hi _; simp
  | cons j js ih =>
    intro lines i hi hnd
    rw [List.foldl_cons]
    rw [List.nodup_cons] at hnd
    obtain ⟨hjn, hnd2⟩ := hnd
    have hlen : (lines.set j (t (lines.getD j ""))).length = lines.length := by
      simp [List.length_set]
    by_cases hij : i = j
    · subst hij
      rw [ih (lines.set i (t (lines.getD i ""))) i (by omega) hnd2, if_neg hjn,
        if_pos (List.mem_cons_self i js)]
      simp [List.getD_eq_getElem?_getD, List.getElem?_set_self hi]
    · rw [ih (lines.set j (t (lines.getD j ""))) i (by omega) hnd2]
      have hgd : (lines.set j (t (lines.getD j ""))).getD i "" = lines.getD i "" := by
        simp [List.getD_eq_getElem?_getD,
          List.getElem?_set_ne (show j ≠ i from fun h => hij h.symm)]
      rw [hgd]
      have hmem : (i ∈ j :: js) ↔ (i ∈ js) := by simp [List.mem_cons, hij]
      by_cases him : i ∈ js
      · rw [if_pos him, if_pos (hmem.mpr him)]
      · rw [if_neg him, if_neg (fun h => him (hmem.mp h))]

theorem mapRange_getD (t : String → String) (lines : List String) (s e i : Nat)
    (h1 : s ≤ i) (h2 : i ≤ e) (h3 : i < lines.length) :
    (mapRange t lines s e).getD i "" = t (lines.getD i "") := by
  unfold mapRange
  rw [foldl_set_getD t (List.range' s (e + 1 - s)) lines i h3
    (List.nodup_range' s (e + 1 - s)), if_pos]
  rw [List.mem_range'_1]
  omega

theorem dropWhile_comment_chars (ld : Chars) :
    ([' ', ' ', ' ', ' ', '#', ' '] ++ ld).dropWhile isPySpace = '#' :: ' ' :: ld := by
  have hsp : isPySpace ' ' = true := by decide
  show (' ' :: ' ' :: ' ' :: ' ' :: '#' :: ' ' :: ld).dropWhile isPySpace = '#' :: ' ' :: ld
  rw [List.dropWhile_cons_of_pos hsp, List.dropWhile_cons_of_pos hsp,
    List.dropWhile_cons_of_pos hsp, List.dropWhile_cons_of_pos hsp,
    List.dropWhile_cons_of_neg (by decide)]

theorem pyStrip_comment_starts (l : String) :
    strStarts (pyStrip ("    # " ++ l)) "#" = true := by
  unfold pyStrip pyStripChars strStarts
  rw [String.data_append, show "    # ".data = [' ', ' ', ' ', ' ', '#', ' '] from rfl,
    dropWhile_comment_chars, List.reverse_cons]
  rw [List.dropWhile_append]
  split
  · decide
  · rw [List.reverse_append]
    show List.isPrefixOf ['#'] _ = true
    rw [show (['#'] : Chars).reverse = ['#'] from rfl]
    simp [List.isPrefixOf]

theorem containsMark_comment (l : String) :
    containsMark ("    # " ++ l) = containsMark l := by
  unfold containsMark
  rw [String.data_append, show "    # ".data = [' ', ' ', ' ', ' ', '#', ' '] from rfl]
  have e1 : ∀ rest : Chars, markChars.isPrefixOf (' ' :: rest) = false := fun _ => rfl
  have e2 : ∀ rest : Chars, markChars.isPrefixOf ('#' :: ' ' :: rest) = false :=
    fun _ => rfl
  show hasMarkSub (' ' :: ' ' :: ' ' :: ' ' :: '#' :: ' ' :: l.data) = hasMarkSub l.data
  simp only [hasMarkSub, e1, e2, Bool.false_or]

theorem stripCommentHead_comment (l : String) :
    stripCommentHead ("    # " ++ l) = l := by
  unfold stripCommentHead
  rw [String.data_append, show "    # ".data = [' ', ' ', ' ', ' ', '#', ' '] from rfl,
    dropWhile_comment_chars]
  dsimp only
  rw [if_pos (by decide : ('#' : Char) = '#'), if_pos (by decide : isPySpace ' ' = true)]

theorem uncommentLine_commentLine (l : String)
    (h1 : strStarts (pyStrip l) "#" = false)
    (h2 : containsMark l = false) :
    uncommentLine (commentLine l) = l := by
  unfold commentLine
  rw [h1]
  simp only [Bool.not_false, if_true]
  unfold uncommentLine
  rw [pyStrip_comment_starts, containsMark_comment, h2]
  simp only [Bool.not_false, Bool.and_true, if_true]
  exact stripCommentHead_comment l

/-- Claim C9 (amended): for every section and every line in
`[start_line, end_line]` whose stripped text does not begin with `#` *and
which does not contain the marker text `## MARK:` anywhere in the line*,
disabling then enabling restores the line byte-for-byte: disabling prepends
exactly `    # `, and enabling strips exactly one
leading-whitespace-plus-`#`-plus-optional-single-space prefix, consuming
precisely what disabling added.  (A line containing `## MARK:` in its body is
skipped by `_uncomment_section` and stays commented.) -/
theorem claim_C9_amended_toggle_roundtrip (lines : List String) (s e i : Nat)
    (hsi : s ≤ i) (hie : i ≤ e) (hlen : i < lines.length)
    (hnc : strStarts (pyStrip (lines.getD i "")) "#" = false)
    (hnm : containsMark (lines.getD i "") = false) :
    (uncommentSection (commentSection lines s e) s e).getD i "" = lines.getD i ""
  ∧ (commentSection lines s e).getD i "" = "    # " ++ lines.getD i "" := by
  unfold uncommentSection commentSection
  rw [mapRange_getD uncommentLine _ s e i hsi hie (by rw [mapRange_length]; exact hlen),
    mapRange_getD commentLine lines s e i hsi hie hlen]
  refine ⟨uncommentLine_commentLine _ hnc hnm, ?_⟩
  unfold commentLine
  rw [hnc]
  simp only [Bool.not_false, if_true]

theorem claim_C9_witness :
    (0 : Nat) ≤ 0 ∧ (0 : Nat) < 1
  ∧ strStarts (pyStrip ((["  Copy-Item src dst"] : List String).getD 0 "")) "#" = false
  ∧ containsMark ((["  Copy-Item src dst"] : List String).getD 0 "") = false
  ∧ (uncommentSection (commentSection ["  Copy-Item src dst"] 0 0) 0 0).getD 0 ""
      = (["  Copy-Item src dst"] : List String).getD 0 "" :=
  ⟨Nat.le_refl 0, by decide, by decide, by decide,
    (claim_C9_amended_toggle_roundtrip ["  Copy-Item src dst"] 0 0 0
      (Nat.le_refl 0) (Nat.le_refl 0) (by decide) (by decide) (by decide)).1⟩

/-- Claim C9 counterexample: a line whose stripped text does not begin with
`#` but whose body contains `## MARK:` is commented by disabling and then
skipped by enabling (the guard `'## MARK:' not in line` fails), so the round
trip does not restore it. -/
theorem claim_C9_counterexample :
    strStarts (pyStrip ((["run ## MARK: note"] : List String).getD 0 "")) "#" = false
  ∧ (uncommentSection (commentSection ["run ## MARK: note"] 0 0) 0 0).getD 0 ""
      = "    # run ## MARK: note"
  ∧ ("    # run ## MARK: note" : String) ≠ "run ## MARK: note" := by
  decide


/-! ## C2: classifier precedence -/

theorem not_space_of_word {c : Char} (h : isWordChar c = true) : isPySpace c = false := by
  by_contra hs
  rw [Bool.not_eq_false] at hs
  unfold isPySpace at hs
  simp only [Bool.or_eq_true, decide_eq_true_eq] at hs
  rcases hs with ((((rfl | rfl) | rfl) | rfl) | rfl) | rfl <;> exact absurd h (by decide)

theorem not_quote_of_digit {c : Char} (h : c.isDigit = true) : isQuoteChar c = false := by
  by_contra hs
  rw [Bool.not_eq_false] at hs
  unfold isQuoteChar at hs
  simp only [Bool.or_eq_true, decide_eq_true_eq] at hs
  rcases hs with rfl | rfl <;> exact absurd h (by decide)

theorem dropWhile_space_append_word {X : Chars} (rest : Chars) (hX : X ≠ [])
    (hXw : ∀ c ∈ X, isWordChar c = true) :
    (X ++ rest).dropWhile isPySpace = X ++ rest := by
  cases X with
  | nil => exact absurd rfl hX
  | cons x X2 =>
    rw [List.cons_append, List.dropWhile_cons_of_neg]
    simp [not_space_of_word (hXw x (List.mem_cons_self x X2))]

theorem takeWhile_word_append {X : Chars} {c : Char} (rest : Chars)
    (hXw : ∀ a ∈ X, isWordChar a = true) (hc : isWordChar c = false) :
    (X ++ c :: rest).takeWhile isWordChar = X := by
  rw [List.takeWhile_append_of_pos hXw, List.takeWhile_cons_of_neg (by simp [hc]),
    List.append_nil]

theorem dropWhile_word_append {X : Chars} {c : Char} (rest : Chars)
    (hXw : ∀ a ∈ X, isWordChar a = true) (hc : isWordChar c = false) :
    (X ++ c :: rest).dropWhile isWordChar = c :: rest := by
  rw [List.dropWhile_append_of_pos hXw, List.dropWhile_cons_of_neg (by simp [hc])]

theorem matchStr_wordline (X D : Chars) (hX : X ≠ [])
    (hXw : ∀ c ∈ X, isWordChar c = true) (hD : ∀ c ∈ D, c.isDigit = true) :
    matchStr (X ++ ' ' :: '=' :: ' ' :: '\x27' :: (D ++ ['\x27'])) = some (X, D) := by
  have hnq : ∀ c ∈ D, (!isQuoteChar c) = true := by
    intro c hc
    rw [not_quote_of_digit (hD c hc)]
    rfl
  obtain ⟨x, X2, rfl⟩ : ∃ x X2, X = x :: X2 := by
    cases X with
    | nil => exact absurd rfl hX
    | cons x X2 => exact ⟨x, X2, rfl⟩
  unfold matchStr
  rw [dropWhile_space_append_word _ hX hXw,
    takeWhile_word_append _ hXw (by decide),
    dropWhile_word_append _ hXw (by decide),
    List.dropWhile_cons_of_pos (by decide : isPySpace ' ' = true),
    List.dropWhile_cons_of_neg (by decide : ¬ (isPySpace '=' = true))]
  dsimp only
  rw [if_pos rfl,
    List.dropWhile_cons_of_pos (by decide : isPySpace ' ' = true),
    List.dropWhile_cons_of_neg (by decide : ¬ (isPySpace '\x27' = true))]
  dsimp only
  rw [if_pos (by decide : isQuoteChar '\x27' = true),
    List.dropWhile_append_of_pos hnq,
    @List.dropWhile_cons_of_neg Char (fun c => !isQuoteChar c) '\x27' [] (by decide)]
  dsimp only
  rw [List.takeWhile_append_of_pos hnq,
    @List.takeWhile_cons_of_neg Char (fun c => !isQuoteChar c) '\x27' [] (by decide),
    List.append_nil]
  rw [List.isEmpty_cons]
  rfl

/-- Claim C2: the Pattern Classifier tests every line against the four
parameter shapes in the fixed priority order String, Number, Array, Boolean,
returning the first match; in particular, for every identifier `X` and digit
string `D`, a line of the form `X = \x27D\x27` classifies as a String parameter
whose value is `D` (without the quotes), never as a Number. -/
theorem claim_C2_classifier_precedence :
    (∀ (line : String) (i : Nat) (sec : String) (n v : Chars),
        matchStr line.data = some (n, v) →
        parseVariableLine line i sec = some ⟨⟨n⟩, ⟨v⟩, i, "string", sec⟩)
  ∧ (∀ (line : String) (i : Nat) (sec : String) (n v : Chars),
        matchStr line.data = none → matchNum line.data = some (n, v) →
        parseVariableLine line i sec = some ⟨⟨n⟩, ⟨v⟩, i, "number", sec⟩)
  ∧ (∀ (line : String) (i : Nat) (sec : String) (n v : Chars),
        matchStr line.data = none → matchNum line.data = none →
        matchArr line.data = some (n, v) →
        parseVariableLine line i sec = some ⟨⟨n⟩, ⟨v⟩, i, "array", sec⟩)
  ∧ (∀ (line : String) (i : Nat) (sec : String) (n v : Chars),
        matchStr line.data = none → matchNum line.data = none →
        matchArr line.data = none → matchBool line.data = some (n, v) →
        parseVariableLine line i sec = some ⟨⟨n⟩, ⟨v⟩, i, "boolean", sec⟩)
  ∧ (∀ (X D : Chars) (i : Nat) (sec : String), X ≠ [] →
        (∀ c ∈ X, isWordChar c = true) → (∀ c ∈ D, c.isDigit = true) →
        parseVariableLine ⟨X ++ ' ' :: '=' :: ' ' :: '\x27' :: (D ++ ['\x27'])⟩ i sec
          = some ⟨⟨X⟩, ⟨D⟩, i, "string", sec⟩) := by
  have h1 : ∀ (line : String) (i : Nat) (sec : String) (n v : Chars),
      matchStr line.data = some (n, v) →
      parseVariableLine line i sec = some ⟨⟨n⟩, ⟨v⟩, i, "string", sec⟩ := by
    intro line i sec n v h
    unfold parseVariableLine
    rw [h]
  refine ⟨h1, ?_, ?_, ?_, ?_⟩
  · intro line i sec n v hs h
    unfold parseVariableLine
    rw [hs, h]
  · intro line i sec n v hs hn h
    unfold parseVariableLine
    rw [hs, hn, h]
  · intro line i sec n v hs hn ha h
    unfold parseVariableLine
    rw [hs, hn, ha, h]
  · intro X D i sec hX hXw hD
    exact h1 _ i sec X D (matchStr_wordline X D hX hXw hD)

theorem claim_C2_witness :
    "Foo".data ≠ ([] : Chars)
  ∧ parseVariableLine ⟨"Foo".data ++ ' ' :: '=' :: ' ' :: '\x27' ::
        ("42".data ++ ['\x27'])⟩ 0 "variables"
      = some ⟨⟨"Foo".data⟩, ⟨"42".data⟩, 0, "string", "variables"⟩ :=
  ⟨by decide,
    claim_C2_classifier_precedence.2.2.2.2 "Foo".data "42".data 0 "variables"
      (by decide) (by decide) (by decide)⟩


/-! ## C3: the session-block pass -/

theorem pyStripChars_cons_of_not_space {c : Char} (cs : Chars)
    (hc : isPySpace c = false) :
    ∃ t, pyStripChars (c :: cs) = c :: t := by
  unfold pyStripChars
  rw [List.dropWhile_cons_of_neg (by simp [hc]), List.reverse_cons,
    List.dropWhile_append]
  split
  · refine ⟨[], ?_⟩
    rw [List.dropWhile_cons_of_neg (by simp [hc])]
    rfl
  · refine ⟨(List.dropWhile isPySpace cs.reverse).reverse, ?_⟩
    rw [List.reverse_append]
    rfl

theorem entryMatch_false_of_strip_close {l : String} (h : pyStrip l = "\x7d") :
    entryMatch l = false := by
  by_contra hb
  rw [Bool.not_eq_false] at hb
  unfold entryMatch at hb
  split at hb
  · rename_i hpre
    obtain ⟨u, hu⟩ := List.isPrefixOf_iff_prefix.mp hpre
    have hdata : l.data = '$' :: ("adtSession".data ++ u) := by
      rw [← hu]
      rfl
    obtain ⟨t2, ht2⟩ := pyStripChars_cons_of_not_space ("adtSession".data ++ u)
      (by decide : isPySpace '$' = false)
    have hps : pyStrip l = ⟨'$' :: t2⟩ := by
      unfold pyStrip
      rw [hdata, ht2]
    rw [h] at hps
    have h2 : ("\x7d".data : Chars) = '$' :: t2 := congrArg String.data hps
    simp at h2
  · exact absurd hb (by simp)

theorem sessionAux_no_entry :
    ∀ (pre rest : List String) (i : Nat),
      (∀ l ∈ pre, entryMatch l = false) →
      sessionAux (pre ++ rest) i false = sessionAux rest (i + pre.length) false := by
  intro pre
  induction pre with
  | nil => intro rest i _; simp
  | cons p ps ih =>
    intro rest i h
    have hp : entryMatch p = false := h p (List.mem_cons_self p ps)
    rw [List.cons_append]
    simp only [sessionAux]
    rw [if_neg (by simp [hp]), if_neg (by simp), if_neg (by simp)]
    rw [ih rest (i + 1) (fun l hl => h l (List.mem_cons_of_mem p hl))]
    rw [show i + 1 + ps.length = i + (p :: ps).length from by
      simp [List.length_cons]; omega]

theorem sessionAux_entry (l : String) (rest : List String) (i : Nat)
    (h : entryMatch l = true) :
    sessionAux (l :: rest) i false = sessionAux rest (i + 1) true := by
  simp only [sessionAux]
  rw [if_pos h]

theorem sessionAux_classify :
    ∀ (mid rest : List String) (i : Nat),
      (∀ l ∈ mid, entryMatch l = false ∧ pyStrip l ≠ "\x7d") →
      sessionAux (mid ++ rest) i true =
        classifyLines mid i ++ sessionAux rest (i + mid.length) true := by
  intro mid
  induction mid with
  | nil => intro rest i _; simp [classifyLines]
  | cons m ms ih =>
    intro rest i h
    obtain ⟨hm1, hm2⟩ := h m (List.mem_cons_self m ms)
    rw [List.cons_append]
    simp only [sessionAux, classifyLines]
    rw [if_neg (by simp [hm1]), if_neg (by simp [hm2]), if_pos trivial]
    have harith : i + 1 + ms.length = i + (ms.length + 1) := by omega
    cases hpv : parseVariableLine m i "variables" with
    | some p =>
      rw [ih rest (i + 1) (fun l hl => h l (List.mem_cons_of_mem m hl))]
      simp only [List.cons_append, List.length_cons, harith]
    | none =>
      rw [ih rest (i + 1) (fun l hl => h l (List.mem_cons_of_mem m hl))]
      simp only [List.length_cons, harith]

theorem sessionAux_close (l : String) (rest : List String) (i : Nat)
    (h : pyStrip l = "\x7d") :
    sessionAux (l :: rest) i true = sessionAux rest (i + 1) false := by
  simp only [sessionAux]
  rw [if_neg (by simp [entryMatch_false_of_strip_close h]), if_pos (by simp [h])]

/-- Claim C3 (amended): the session-block pass enters the block only on a
line matching `$adtSession = @\x7b` — the fixed hashtable name, not an
arbitrary identifier — exits on the first line whose trimmed text is exactly
`\x7d`, and records as parameters tagged `section_tag = "variables"` exactly
those lines strictly between entry and exit that the Pattern Classifier
matches (after the exit the pass continues, out of block, on the remaining
lines). -/
theorem claim_C3_amended_session_block (pre mid post : List String)
    (entry close : String)
    (hentry : entryMatch entry = true)
    (hclose : pyStrip close = "\x7d")
    (hpre : ∀ l ∈ pre, entryMatch l = false)
    (hmid : ∀ l ∈ mid, entryMatch l = false ∧ pyStrip l ≠ "\x7d") :
    sessionParams (pre ++ entry :: (mid ++ close :: post)) =
      classifyLines mid (pre.length + 1) ++
        sessionAux post (pre.length + mid.length + 2) false := by
  unfold sessionParams
  rw [sessionAux_no_entry pre _ 0 hpre, Nat.zero_add,
    sessionAux_entry _ _ _ hentry, sessionAux_classify mid _ _ hmid,
    sessionAux_close _ _ _ hclose,
    show pre.length + 1 + mid.length + 1 = pre.length + mid.length + 2 from by omega]

theorem claim_C3_witness :
    entryMatch "$adtSession = @\x7b" = true
  ∧ pyStrip "\x7d" = "\x7d"
  ∧ sessionParams ([] ++ "$adtSession = @\x7b" ::
      (["AppVendor = \x27Acme\x27"] ++ "\x7d" :: [])) =
      classifyLines ["AppVendor = \x27Acme\x27"] ((List.length ([] : List String)) + 1) ++
        sessionAux [] ((List.length ([] : List String)) +
          (List.length ["AppVendor = \x27Acme\x27"]) + 2) false :=
  ⟨by decide, by decide,
    claim_C3_amended_session_block [] ["AppVendor = \x27Acme\x27"] []
      "$adtSession = @\x7b" "\x7d" (by decide) (by decide)
      (by intro l hl; simp at hl) (by intro l hl; simp at hl; rw [hl]; exact ⟨by decide, by decide⟩)⟩

/-- Claim C3 counterexample: a hashtable opened by a different identifier,
`$foo = @\x7b`, does not enter the block, so a classifier-matching line
strictly inside it is not recorded — the entry trigger is the fixed name
`$adtSession`, not `$<identifier>`. -/
theorem claim_C3_counterexample :
    sessionParams ["$foo = @\x7b", "AppVendor = \x27Acme\x27", "\x7d"] = []
  ∧ parseVariableLine "AppVendor = \x27Acme\x27" 1 "variables"
      = some ⟨"AppVendor", "Acme", 1, "string", "variables"⟩ := by
  decide


/-! ## Update-parameter infrastructure (C6, C7, C10) -/

theorem parseVariableLine_str (line : String) (i : Nat) (sec : String)
    {n v : Chars} (h : matchStr line.data = some (n, v)) :
    parseVariableLine line i sec = some ⟨⟨n⟩, ⟨v⟩, i, "string", sec⟩ := by
  unfold parseVariableLine
  rw [h]

theorem parseVariableLine_num (line : String) (i : Nat) (sec : String)
    {n v : Chars} (hs : matchStr line.data = none)
    (h : matchNum line.data = some (n, v)) :
    parseVariableLine line i sec = some ⟨⟨n⟩, ⟨v⟩, i, "number", sec⟩ := by
  unfold parseVariableLine
  rw [hs, h]

theorem parseVariableLine_arr (line : String) (i : Nat) (sec : String)
    {n v : Chars} (hs : matchStr line.data = none) (hn : matchNum line.data = none)
    (h : matchArr line.data = some (n, v)) :
    parseVariableLine line i sec = some ⟨⟨n⟩, ⟨v⟩, i, "array", sec⟩ := by
  unfold parseVariableLine
  rw [hs, hn, h]

theorem parseVariableLine_bool (line : String) (i : Nat) (sec : String)
    {n v : Chars} (hs : matchStr line.data = none) (hn : matchNum line.data = none)
    (ha : matchArr line.data = none) (h : matchBool line.data = some (n, v)) :
    parseVariableLine line i sec = some ⟨⟨n⟩, ⟨v⟩, i, "boolean", sec⟩ := by
  unfold parseVariableLine
  rw [hs, hn, ha, h]

theorem parseVariableLine_fields {l : String} {i : Nat} {s : String}
    {p : ScriptParameter} (h : parseVariableLine l i s = some p) :
    (p.parameter_type = "string" ∨ p.parameter_type = "number" ∨
     p.parameter_type = "array" ∨ p.parameter_type = "boolean") ∧
    p.section_tag = s ∧ p.line_number = i := by
  revert h
  unfold parseVariableLine
  cases matchStr l.data with
  | some nv =>
    obtain ⟨n, v⟩ := nv
    intro h
    cases h
    exact ⟨Or.inl rfl, rfl, rfl⟩
  | none =>
    cases matchNum l.data with
    | some nv =>
      obtain ⟨n, v⟩ := nv
      intro h
      cases h
      exact ⟨Or.inr (Or.inl rfl), rfl, rfl⟩
    | none =>
      cases matchArr l.data with
      | some nv =>
        obtain ⟨n, v⟩ := nv
        intro h
        cases h
        exact ⟨Or.inr (Or.inr (Or.inl rfl)), rfl, rfl⟩
      | none =>
        cases matchBool l.data with
        | some nv =>
          obtain ⟨n, v⟩ := nv
          intro h
          cases h
          exact ⟨Or.inr (Or.inr (Or.inr rfl)), rfl, rfl⟩
        | none =>
          intro h
          simp at h

theorem sessionAux_mem :
    ∀ {ls : List String} {i : Nat} {b : Bool} {p : ScriptParameter},
      p ∈ sessionAux ls i b →
      ∃ l j, parseVariableLine l j "variables" = some p := by
  intro ls
  induction ls with
  | nil => intro i b p h; simp [sessionAux] at h
  | cons l ls ih =>
    intro i b p h
    simp only [sessionAux] at h
    split at h
    · exact ih h
    · split at h
      · exact ih h
      · split at h
        · split at h
          · rename_i hpv
            rcases List.mem_cons.mp h with rfl | hmem
            · exact ⟨l, i, hpv⟩
            · exact ih hmem
          · exact ih h
        · exact ih h

theorem urlAux_mem :
    ∀ {ls : List String} {i : Nat} {p : ScriptParameter},
      p ∈ urlAux ls i → p.parameter_type = "url" ∧ i ≤ p.line_number := by
  intro ls
  induction ls with
  | nil => intro i p h; simp [urlAux] at h
  | cons l ls ih =>
    intro i p h
    simp only [urlAux] at h
    split at h
    · rcases List.mem_cons.mp h with rfl | hmem
      · exact ⟨rfl, Nat.le_refl i⟩
      · obtain ⟨hk, hi⟩ := ih hmem
        exact ⟨hk, by omega⟩
    · obtain ⟨hk, hi⟩ := ih h
      exact ⟨hk, by omega⟩

theorem parseLines_params_kind {lines : List String} {p : ScriptParameter}
    (h : p ∈ (parseLines lines).parameters) :
    p.parameter_type = "string" ∨ p.parameter_type = "url" ∨
    p.parameter_type = "number" ∨ p.parameter_type = "array" ∨
    p.parameter_type = "boolean" := by
  rcases List.mem_append.mp h with hs | hu
  · obtain ⟨l, j, hpv⟩ := sessionAux_mem hs
    rcases (parseVariableLine_fields hpv).1 with h1 | h1 | h1 | h1
    · exact Or.inl h1
    · exact Or.inr (Or.inr (Or.inl h1))
    · exact Or.inr (Or.inr (Or.inr (Or.inl h1)))
    · exact Or.inr (Or.inr (Or.inr (Or.inr h1)))
  · exact Or.inr (Or.inl (urlAux_mem hu).1)

theorem rewriteLine_isSome {ptype : String} (v old : String)
    (h : ptype = "string" ∨ ptype = "url" ∨ ptype = "number" ∨
         ptype = "array" ∨ ptype = "boolean") :
    (rewriteLine ptype v old).isSome := by
  rcases h with rfl | rfl | rfl | rfl | rfl <;> simp [rewriteLine]

theorem updateParamList_none {q v : String} :
    ∀ {ps : List ScriptParameter} {lines : List String},
      (∀ p ∈ ps, nameMatches q p = false) →
      updateParamList q v ps lines = none := by
  intro ps
  induction ps with
  | nil => intro lines _; rfl
  | cons p ps ih =>
    intro lines h
    simp only [updateParamList]
    rw [if_neg (by simp [h p (List.mem_cons_self p ps)]),
      ih (fun p' hp' => h p' (List.mem_cons_of_mem p hp'))]

theorem updateParamList_split {q v : String} :
    ∀ (ps₁ : List ScriptParameter) {p : ScriptParameter} (ps₂ : List ScriptParameter)
      {lines : List String} {nl : String},
      (∀ p' ∈ ps₁, nameMatches q p' = false) →
      nameMatches q p = true →
      rewriteLine p.parameter_type v (lines.getD p.line_number "") = some nl →
      updateParamList q v (ps₁ ++ p :: ps₂) lines =
        some (ps₁ ++ { p with value := v } :: ps₂, lines.set p.line_number nl) := by
  intro ps₁
  induction ps₁ with
  | nil =>
    intro p ps₂ lines nl _ hm hr
    simp only [List.nil_append, updateParamList]
    rw [if_pos hm, hr]
  | cons a ps ih =>
    intro p ps₂ lines nl h hm hr
    simp only [List.cons_append, updateParamList, List.append_eq]
    rw [if_neg (by simp [h a (List.mem_cons_self a ps)]),
      ih ps₂ (fun p' hp' => h p' (List.mem_cons_of_mem a hp')) hm hr]

theorem updateParamList_isSome {q v : String} :
    ∀ {ps : List ScriptParameter} {lines : List String} {p : ScriptParameter},
      p ∈ ps → nameMatches q p = true →
      (rewriteLine p.parameter_type v (lines.getD p.line_number "")).isSome →
      (updateParamList q v ps lines).isSome := by
  intro ps
  induction ps with
  | nil => intro lines p h; simp at h
  | cons a ps ih =>
    intro lines p hmem hm hr
    simp only [updateParamList]
    by_cases ha : nameMatches q a = true
    · rw [if_pos ha]
      cases hrw : rewriteLine a.parameter_type v (lines.getD a.line_number "") with
      | some nl => simp
      | none =>
        rcases List.mem_cons.mp hmem with rfl | hps
        · rw [hrw] at hr
          simp at hr
        · have hih := ih hps hm hr
          cases hupd : updateParamList q v ps lines with
          | some r =>
            obtain ⟨ps2, l2⟩ := r
            simp
          | none =>
            rw [hupd] at hih
            simp at hih
    · rw [if_neg ha]
      rcases List.mem_cons.mp hmem with rfl | hps
      · exact absurd hm ha
      · have hih := ih hps hm hr
        cases hupd : updateParamList q v ps lines with
        | some r =>
          obtain ⟨ps2, l2⟩ := r
          simp
        | none =>
          rw [hupd] at hih
          simp at hih

/-! ## C7: name matching with and without the sigil -/

/-- Claim C7 (amended): `update_parameter` matches a stored parameter name
against the query `q` iff the stored name equals `q` or equals `$` + `q`: a
sigil on the *stored* name may be omitted in the query, but a query may not
add a sigil to a sigil-less stored name.  Hence the as-scanned name always
locates the parameter and returns true; the bare form of a `$`-named URL
parameter also works; and when no scanned parameter matches, the call
returns false and leaves the script content entirely unchanged. -/
theorem claim_C7_amended_sigil_matching (lines : List String) (v : String) :
    (∀ q : String, (∀ p ∈ (parseLines lines).parameters, nameMatches q p = false) →
      updateParameter (parseLines lines) q v = (false, parseLines lines))
  ∧ (∀ p ∈ (parseLines lines).parameters,
      (updateParameter (parseLines lines) p.name v).1 = true)
  ∧ (∀ p ∈ (parseLines lines).parameters, ∀ w : String, p.name = "$" ++ w →
      (updateParameter (parseLines lines) w v).1 = true) := by
  refine ⟨?_, ?_, ?_⟩
  · intro q h
    unfold updateParameter
    rw [updateParamList_none h]
  · intro p hp
    have hm : nameMatches p.name p = true := by
      unfold nameMatches
      simp
    have hsome := @updateParamList_isSome p.name v (parseLines lines).parameters
      (parseLines lines).lines p hp hm
      (rewriteLine_isSome v ((parseLines lines).lines.getD p.line_number "")
        (parseLines_params_kind hp))
    unfold updateParameter
    cases hupd : updateParamList p.name v (parseLines lines).parameters
        (parseLines lines).lines with
    | some r => obtain ⟨ps2, l2⟩ := r; rfl
    | none => rw [hupd] at hsome; simp at hsome
  · intro p hp w hw
    have hm : nameMatches w p = true := by
      unfold nameMatches
      rw [hw]
      simp
    have hsome := @updateParamList_isSome w v (parseLines lines).parameters
      (parseLines lines).lines p hp hm
      (rewriteLine_isSome v ((parseLines lines).lines.getD p.line_number "")
        (parseLines_params_kind hp))
    unfold updateParameter
    cases hupd : updateParamList w v (parseLines lines).parameters
        (parseLines lines).lines with
    | some r => obtain ⟨ps2, l2⟩ := r; rfl
    | none => rw [hupd] at hsome; simp at hsome

theorem claim_C7_witness :
    (updateParameter
        (parseLines ["$adtSession = @\x7b", "AppVendor = \x27Acme\x27", "\x7d"])
        "AppVendor" "Globex").1 = true
  ∧ (updateParameter (parseLines ["$Url1 = \x27https://example.com/a.zip\x27"])
        "Url1" "https://x").1 = true
  ∧ updateParameter
        (parseLines ["$adtSession = @\x7b", "AppVendor = \x27Acme\x27", "\x7d"])
        "Missing" "v"
      = (false, parseLines ["$adtSession = @\x7b", "AppVendor = \x27Acme\x27", "\x7d"]) :=
  ⟨(claim_C7_amended_sigil_matching
      ["$adtSession = @\x7b", "AppVendor = \x27Acme\x27", "\x7d"] "Globex").2.1
      ⟨"AppVendor", "Acme", 1, "string", "variables"⟩ (by decide),
   (claim_C7_amended_sigil_matching ["$Url1 = \x27https://example.com/a.zip\x27"]
      "https://x").2.2
      ⟨"$Url1", "https://example.com/a.zip", 0, "url", "install"⟩ (by decide)
      "Url1" (by decide),
   (claim_C7_amended_sigil_matching
      ["$adtSession = @\x7b", "AppVendor = \x27Acme\x27", "\x7d"] "v").1
      "Missing" (by decide)⟩

/-- Claim C7 counterexample: the session parameter `AppVendor` is stored
without a sigil; querying it *with* the leading `$` does not locate it —
`update_parameter` returns false and the content is unchanged — whereas the
claim promises that both the sigil-bearing and the sigil-less form locate
every scanned parameter. -/
theorem claim_C7_counterexample :
    (parseLines ["$adtSession = @\x7b", "AppVendor = \x27Acme\x27", "\x7d"]).parameters
      = [⟨"AppVendor", "Acme", 1, "string", "variables"⟩]
  ∧ (updateParameter
      (parseLines ["$adtSession = @\x7b", "AppVendor = \x27Acme\x27", "\x7d"])
      "$AppVendor" "X").1 = false
  ∧ (updateParameter
      (parseLines ["$adtSession = @\x7b", "AppVendor = \x27Acme\x27", "\x7d"])
      "$AppVendor" "X").2.lines
      = ["$adtSession = @\x7b", "AppVendor = \x27Acme\x27", "\x7d"] := by
  decide


/-! ## C6: the Number rewrite replaces every `= digits` run -/

theorem word_ne_char {c : Char} (k : Char) (h : isWordChar c = true)
    (hk : isWordChar k = false) : c ≠ k := by
  intro he
  rw [he, hk] at h
  exact Bool.false_ne_true h

theorem digit_ne_char {c : Char} (k : Char) (h : c.isDigit = true)
    (hk : k.isDigit = false) : c ≠ k := by
  intro he
  rw [he, hk] at h
  exact Bool.false_ne_true h

theorem not_space_of_digit {c : Char} (h : c.isDigit = true) : isPySpace c = false := by
  by_contra hs
  rw [Bool.not_eq_false] at hs
  unfold isPySpace at hs
  simp only [Bool.or_eq_true, decide_eq_true_eq] at hs
  rcases hs with ((((rfl | rfl) | rfl) | rfl) | rfl) | rfl <;> exact absurd h (by decide)

theorem takeWhile_all {p : Char → Bool} :
    ∀ {l : Chars}, (∀ c ∈ l, p c = true) → l.takeWhile p = l := by
  intro l
  induction l with
  | nil => intro _; rfl
  | cons c cs ih =>
    intro h
    rw [List.takeWhile_cons_of_pos (h c (List.mem_cons_self c cs)),
      ih (fun c' hc' => h c' (List.mem_cons_of_mem c hc'))]

theorem dropWhile_space_append_digit {D : Chars} (rest : Chars) (hD : D ≠ [])
    (hDd : ∀ c ∈ D, c.isDigit = true) :
    (D ++ rest).dropWhile isPySpace = D ++ rest := by
  cases D with
  | nil => exact absurd rfl hD
  | cons d D2 =>
    rw [List.cons_append, List.dropWhile_cons_of_neg
      (by simp [not_space_of_digit (hDd d (List.mem_cons_self d D2))])]

theorem subNumAll_skip {v : Chars} :
    ∀ {a : Chars} (rest : Chars), (∀ c ∈ a, c ≠ '=') →
      subNumAll v (a ++ rest) = a ++ subNumAll v rest := by
  intro a
  induction a with
  | nil => intro rest _; simp
  | cons c a2 ih =>
    intro rest h
    rw [List.cons_append]
    simp only [subNumAll]
    rw [if_neg (h c (List.mem_cons_self c a2)),
      ih rest (fun c' hc' => h c' (List.mem_cons_of_mem c hc')), List.cons_append]

theorem subNumAll_hit (v : Chars) (D rest : Chars) (hD : D ≠ [])
    (hDd : ∀ c ∈ D, c.isDigit = true)
    (hrest : ∀ c t, rest = c :: t → c.isDigit = false) :
    subNumAll v ('=' :: ' ' :: (D ++ rest)) = '=' :: ' ' :: (v ++ subNumAll v rest) := by
  obtain ⟨d, D2, rfl⟩ : ∃ d D2, D = d :: D2 := by
    cases D with
    | nil => exact absurd rfl hD
    | cons d D2 => exact ⟨d, D2, rfl⟩
  have hdw : ((' ' :: ((d :: D2) ++ rest)).dropWhile isPySpace) = (d :: D2) ++ rest := by
    rw [List.dropWhile_cons_of_pos (by decide : isPySpace ' ' = true), List.cons_append,
      List.dropWhile_cons_of_neg
        (by simp [not_space_of_digit (hDd d (List.mem_cons_self d D2))])]
  have htw : (((d :: D2) ++ rest)).takeWhile (·.isDigit) = d :: D2 := by
    rw [List.takeWhile_append_of_pos hDd]
    cases rest with
    | nil => simp [takeWhile_all]
    | cons c t =>
      rw [List.takeWhile_cons_of_neg (by simp [hrest c t rfl]), List.append_nil]
  conv_lhs => rw [subNumAll]
  rw [if_pos rfl, hdw, htw]
  rw [if_neg (by simp), List.drop_left]

theorem subNumAll_line (v X D₁ D₂ : Chars)
    (hXw : ∀ c ∈ X, isWordChar c = true)
    (hD₁ : D₁ ≠ []) (hD₁d : ∀ c ∈ D₁, c.isDigit = true)
    (hD₂ : D₂ ≠ []) (hD₂d : ∀ c ∈ D₂, c.isDigit = true) :
    subNumAll v (numLine X D₁ D₂).data = (numLine X v v).data := by
  show subNumAll v (X ++ ' ' :: '=' :: ' ' ::
      (D₁ ++ ' ' :: ';' :: ' ' :: 'm' :: 'a' :: 'x' :: ' ' :: '=' :: ' ' :: D₂)) = _
  rw [subNumAll_skip _ (fun c hc => word_ne_char '=' (hXw c hc) (by decide))]
  rw [show (' ' :: '=' :: ' ' ::
      (D₁ ++ ' ' :: ';' :: ' ' :: 'm' :: 'a' :: 'x' :: ' ' :: '=' :: ' ' :: D₂) : Chars)
      = [' '] ++ ('=' :: ' ' ::
      (D₁ ++ ' ' :: ';' :: ' ' :: 'm' :: 'a' :: 'x' :: ' ' :: '=' :: ' ' :: D₂)) from rfl]
  rw [subNumAll_skip _ (by intro c hc; simp at hc; rw [hc]; decide)]
  rw [subNumAll_hit v D₁ _ hD₁ hD₁d (by intro c t he; cases he; decide)]
  rw [show (' ' :: ';' :: ' ' :: 'm' :: 'a' :: 'x' :: ' ' :: '=' :: ' ' :: D₂ : Chars)
      = [' ', ';', ' ', 'm', 'a', 'x', ' '] ++ ('=' :: ' ' :: D₂) from rfl]
  rw [subNumAll_skip _ (by
    intro c hc
    simp only [List.mem_cons, List.not_mem_nil, or_false] at hc
    rcases hc with rfl | rfl | rfl | rfl | rfl | rfl | rfl <;> decide)]
  rw [show ('=' :: ' ' :: D₂ : Chars) = '=' :: ' ' :: (D₂ ++ []) from by
    rw [List.append_nil]]
  rw [subNumAll_hit v D₂ [] hD₂ hD₂d (by intro c t he; cases he)]
  show _ = X ++ ' ' :: '=' :: ' ' ::
      (v ++ ' ' :: ';' :: ' ' :: 'm' :: 'a' :: 'x' :: ' ' :: '=' :: ' ' :: v)
  simp [subNumAll]

theorem matchNum_twoNum (X D₁ D₂ : Chars) (hX : X ≠ [])
    (hXw : ∀ c ∈ X, isWordChar c = true)
    (hD₁ : D₁ ≠ []) (hD₁d : ∀ c ∈ D₁, c.isDigit = true) :
    matchNum (numLine X D₁ D₂).data = some (X, D₁) := by
  obtain ⟨x, X2, rfl⟩ : ∃ x X2, X = x :: X2 := by
    cases X with
    | nil => exact absurd rfl hX
    | cons x X2 => exact ⟨x, X2, rfl⟩
  show matchNum ((x :: X2) ++ ' ' :: '=' :: ' ' ::
      (D₁ ++ ' ' :: ';' :: ' ' :: 'm' :: 'a' :: 'x' :: ' ' :: '=' :: ' ' :: D₂)) = _
  unfold matchNum
  rw [dropWhile_space_append_word _ hX hXw,
    takeWhile_word_append _ hXw (by decide),
    dropWhile_word_append _ hXw (by decide),
    List.dropWhile_cons_of_pos (by decide : isPySpace ' ' = true),
    List.dropWhile_cons_of_neg (by decide : ¬ (isPySpace '=' = true))]
  rw [if_neg (by simp)]
  dsimp only
  rw [if_pos rfl,
    List.dropWhile_cons_of_pos (by decide : isPySpace ' ' = true),
    dropWhile_space_append_digit _ hD₁ hD₁d,
    List.takeWhile_append_of_pos hD₁d,
    List.takeWhile_cons_of_neg (by decide), List.append_nil]
  rw [if_neg (by
    cases D₁ with
    | nil => exact absurd rfl hD₁
    | cons d D2 => simp)]

theorem matchStr_twoNum (X D₁ D₂ : Chars) (hX : X ≠ [])
    (hXw : ∀ c ∈ X, isWordChar c = true)
    (hD₁ : D₁ ≠ []) (hD₁d : ∀ c ∈ D₁, c.isDigit = true) :
    matchStr (numLine X D₁ D₂).data = none := by
  obtain ⟨d, D2, rfl⟩ : ∃ d D2, D₁ = d :: D2 := by
    cases D₁ with
    | nil => exact absurd rfl hD₁
    | cons d D2 => exact ⟨d, D2, rfl⟩
  obtain ⟨x, X2, rfl⟩ : ∃ x X2, X = x :: X2 := by
    cases X with
    | nil => exact absurd rfl hX
    | cons x X2 => exact ⟨x, X2, rfl⟩
  show matchStr ((x :: X2) ++ ' ' :: '=' :: ' ' ::
      ((d :: D2) ++ ' ' :: ';' :: ' ' :: 'm' :: 'a' :: 'x' :: ' ' :: '=' :: ' ' :: D₂)) = none
  unfold matchStr
  rw [dropWhile_space_append_word _ hX hXw,
    takeWhile_word_append _ hXw (by decide),
    dropWhile_word_append _ hXw (by decide),
    List.dropWhile_cons_of_pos (by decide : isPySpace ' ' = true),
    List.dropWhile_cons_of_neg (by decide : ¬ (isPySpace '=' = true))]
  rw [if_neg (by simp)]
  dsimp only
  rw [if_pos rfl,
    List.dropWhile_cons_of_pos (by decide : isPySpace ' ' = true),
    List.cons_append,
    List.dropWhile_cons_of_neg
      (by simp [not_space_of_digit (hD₁d d (List.mem_cons_self d D2))])]
  dsimp only
  rw [if_neg (by
    simp [not_quote_of_digit (hD₁d d (List.mem_cons_self d D2))])]


theorem entryMatch_false_head {l : String} {c : Char} {t : Chars}
    (hd : l.data = c :: t) (hc : c ≠ '$') : entryMatch l = false := by
  have hpre : ("$adtSession".data).isPrefixOf l.data = false := by
    rw [hd]
    show (('$' == c) && _) = false
    rw [beq_eq_false_iff_ne.mpr (Ne.symm hc), Bool.false_and]
  unfold entryMatch
  rw [if_neg (by simp [hpre])]

theorem pyStrip_ne_close {l : String} {c : Char} {t : Chars}
    (hd : l.data = c :: t) (hc : isPySpace c = false) (hne : c ≠ '\x7d') :
    pyStrip l ≠ "\x7d" := by
  obtain ⟨t2, ht2⟩ := pyStripChars_cons_of_not_space t hc
  unfold pyStrip
  rw [hd, ht2]
  intro he
  have hdat : (c :: t2 : Chars) = "\x7d".data := congrArg String.data he
  simp at hdat
  exact hne hdat.1

theorem urlSearch_none : ∀ {cs : Chars}, (∀ c ∈ cs, c ≠ '$') → urlSearch cs = none := by
  intro cs
  induction cs with
  | nil => intro _; rfl
  | cons c cs ih =>
    intro h
    have hm : urlMatchAt (c :: cs) = none := by
      simp only [urlMatchAt]
      rw [if_neg (h c (List.mem_cons_self c cs))]
    simp only [urlSearch, hm]
    exact ih (fun c' hc' => h c' (List.mem_cons_of_mem c hc'))

theorem numLine_no_sigil (X D₁ D₂ : Chars)
    (hXw : ∀ c ∈ X, isWordChar c = true)
    (hD₁d : ∀ c ∈ D₁, c.isDigit = true) (hD₂d : ∀ c ∈ D₂, c.isDigit = true) :
    ∀ c ∈ (numLine X D₁ D₂).data, c ≠ '$' := by
  intro c hc
  rcases List.mem_append.mp hc with h1 | h2
  · exact word_ne_char '$' (hXw c h1) (by decide)
  · rcases List.mem_cons.mp h2 with rfl | h3
    · decide
    rcases List.mem_cons.mp h3 with rfl | h4
    · decide
    rcases List.mem_cons.mp h4 with rfl | h5
    · decide
    rcases List.mem_append.mp h5 with h6 | h7
    · exact digit_ne_char '$' (hD₁d c h6) (by decide)
    rcases List.mem_cons.mp h7 with rfl | h8
    · decide
    rcases List.mem_cons.mp h8 with rfl | h9
    · decide
    rcases List.mem_cons.mp h9 with rfl | h10
    · decide
    rcases List.mem_cons.mp h10 with rfl | h11
    · decide
    rcases List.mem_cons.mp h11 with rfl | h12
    · decide
    rcases List.mem_cons.mp h12 with rfl | h13
    · decide
    rcases List.mem_cons.mp h13 with rfl | h14
    · decide
    rcases List.mem_cons.mp h14 with rfl | h15
    · decide
    rcases List.mem_cons.mp h15 with rfl | h16
    · decide
    exact digit_ne_char '$' (hD₂d c h16) (by decide)

theorem parseLines_numScript (X D₁ D₂ : Chars) (hX : X ≠ [])
    (hXw : ∀ c ∈ X, isWordChar c = true)
    (hD₁ : D₁ ≠ []) (hD₁d : ∀ c ∈ D₁, c.isDigit = true)
    (hD₂ : D₂ ≠ []) (hD₂d : ∀ c ∈ D₂, c.isDigit = true) :
    (parseLines (numScript X D₁ D₂)).parameters
      = [⟨⟨X⟩, ⟨D₁⟩, 1, "number", "variables"⟩] := by
  obtain ⟨x, X2, hXd⟩ : ∃ x X2, X = x :: X2 := by
    cases X with
    | nil => exact absurd rfl hX
    | cons x X2 => exact ⟨x, X2, rfl⟩
  have hdata : (numLine X D₁ D₂).data = x :: (X2 ++ ' ' :: '=' :: ' ' ::
      (D₁ ++ ' ' :: ';' :: ' ' :: 'm' :: 'a' :: 'x' :: ' ' :: '=' :: ' ' :: D₂)) := by
    show X ++ _ = _
    rw [hXd, List.cons_append]
  have hxw : isWordChar x = true := hXw x (by rw [hXd]; exact List.mem_cons_self x X2)
  have hmid : ∀ l ∈ [numLine X D₁ D₂], entryMatch l = false ∧ pyStrip l ≠ "\x7d" := by
    intro l hl
    rw [List.mem_singleton] at hl
    subst hl
    refine ⟨entryMatch_false_head hdata (word_ne_char '$' hxw (by decide)), ?_⟩
    exact pyStrip_ne_close hdata (not_space_of_word hxw)
      (word_ne_char '\x7d' hxw (by decide))
  have hsess : sessionParams (numScript X D₁ D₂) =
      classifyLines [numLine X D₁ D₂] 1 := by
    unfold sessionParams
    show sessionAux ([] ++ "$adtSession = @\x7b" ::
      ([numLine X D₁ D₂] ++ "\x7d" :: [])) 0 false = _
    rw [sessionAux_no_entry [] _ 0 (by intro l hl; simp at hl), Nat.zero_add,
      sessionAux_entry _ _ _ (by decide),
      sessionAux_classify [numLine X D₁ D₂] _ _ hmid,
      sessionAux_close _ _ _ (by decide)]
    simp [sessionAux]
  have hurl : urlParams (numScript X D₁ D₂) = [] := by
    unfold urlParams numScript
    simp only [urlAux]
    rw [show urlSearch ("$adtSession = @\x7b".data) = none from by decide,
      urlSearch_none (numLine_no_sigil X D₁ D₂ hXw hD₁d hD₂d),
      show urlSearch ("\x7d".data) = none from by decide]
  show sessionParams (numScript X D₁ D₂) ++ urlParams (numScript X D₁ D₂) = _
  rw [hsess, hurl, List.append_nil]
  unfold classifyLines
  rw [parseVariableLine_num (numLine X D₁ D₂) 1 "variables"
    (matchStr_twoNum X D₁ D₂ hX hXw hD₁ hD₁d)
    (matchNum_twoNum X D₁ D₂ hX hXw hD₁ hD₁d)]
  rfl

theorem dropWhile_space_prepend (rest : Chars) :
    ∀ (S : Chars), (∀ c ∈ S, isPySpace c = true) →
      (S ++ rest).dropWhile isPySpace = rest.dropWhile isPySpace := by
  intro S
  induction S with
  | nil => intro _; simp
  | cons s S ih =>
    intro hS
    rw [List.cons_append, List.dropWhile_cons_of_pos (hS s (List.mem_cons_self s S))]
    exact ih (fun c hc => hS c (List.mem_cons_of_mem s hc))

theorem subNumAll_run (v : Chars) (S D rest : Chars)
    (hS : ∀ c ∈ S, isPySpace c = true)
    (hD : D ≠ []) (hDd : ∀ c ∈ D, c.isDigit = true)
    (hrest : ∀ c t, rest = c :: t → c.isDigit = false) :
    subNumAll v ('=' :: (S ++ D ++ rest)) = '=' :: ' ' :: (v ++ subNumAll v rest) := by
  obtain ⟨d, D2, rfl⟩ : ∃ d D2, D = d :: D2 := by
    cases D with
    | nil => exact absurd rfl hD
    | cons d D2 => exact ⟨d, D2, rfl⟩
  have hdw : (((S ++ (d :: D2) ++ rest)).dropWhile isPySpace) = (d :: D2) ++ rest := by
    rw [List.append_assoc, dropWhile_space_prepend ((d :: D2) ++ rest) S hS,
      dropWhile_space_append_digit rest hD hDd]
  have htw : (((d :: D2) ++ rest)).takeWhile (·.isDigit) = d :: D2 := by
    rw [List.takeWhile_append_of_pos hDd]
    cases rest with
    | nil => simp [takeWhile_all]
    | cons c t =>
      rw [List.takeWhile_cons_of_neg (by simp [hrest c t rfl]), List.append_nil]
  conv_lhs => rw [subNumAll]
  rw [if_pos rfl, hdw, htw]
  rw [if_neg (by simp), List.drop_left]

/-- Claim C6 (amended): in every script, for every scanned Number parameter
located by `update_parameter` (the earliest name match), the call succeeds,
rewrites only that parameter's line — every other line is untouched
byte-for-byte — and the rewritten line is the `re.sub` of `=\s*\d+` to
`= <new literal>` applied WITHOUT a count, which replaces *every* occurrence
of `=` followed by optional whitespace and a digit run, not only the first:
the scan copies non-`=` text verbatim and substitutes at each such
occurrence (last two conjuncts). -/
theorem claim_C6_amended_number_rewrite (lines : List String) (q v : String)
    (ps₁ ps₂ : List ScriptParameter) (p : ScriptParameter)
    (hsplit : (parseLines lines).parameters = ps₁ ++ p :: ps₂)
    (hno : ∀ p' ∈ ps₁, nameMatches q p' = false)
    (hm : nameMatches q p = true)
    (hnum : p.parameter_type = "number") :
    (updateParameter (parseLines lines) q v).1 = true
  ∧ (updateParameter (parseLines lines) q v).2.lines
      = (parseLines lines).lines.set p.line_number
          ⟨subNumAll v.data ((parseLines lines).lines.getD p.line_number "").data⟩
  ∧ (∀ j, j ≠ p.line_number →
      (updateParameter (parseLines lines) q v).2.lines.getD j ""
        = (parseLines lines).lines.getD j "")
  ∧ (∀ a rest : Chars, (∀ c ∈ a, c ≠ '=') →
      subNumAll v.data (a ++ rest) = a ++ subNumAll v.data rest)
  ∧ (∀ S D rest : Chars, (∀ c ∈ S, isPySpace c = true) → D ≠ [] →
      (∀ c ∈ D, c.isDigit = true) → (∀ c t, rest = c :: t → c.isDigit = false) →
      subNumAll v.data ('=' :: (S ++ D ++ rest))
        = '=' :: ' ' :: (v.data ++ subNumAll v.data rest)) := by
  have hnl : rewriteLine p.parameter_type v
      ((parseLines lines).lines.getD p.line_number "")
      = some ⟨subNumAll v.data ((parseLines lines).lines.getD p.line_number "").data⟩ := by
    rw [hnum]
    simp [rewriteLine]
  have hupd : updateParamList q v (parseLines lines).parameters
      (parseLines lines).lines
      = some (ps₁ ++ { p with value := v } :: ps₂,
          (parseLines lines).lines.set p.line_number
            ⟨subNumAll v.data ((parseLines lines).lines.getD p.line_number "").data⟩) := by
    rw [hsplit]
    exact updateParamList_split ps₁ ps₂ hno hm hnl
  have hres : updateParameter (parseLines lines) q v =
      (true, { parseLines lines with
        parameters := ps₁ ++ { p with value := v } :: ps₂,
        lines := (parseLines lines).lines.set p.line_number
          ⟨subNumAll v.data ((parseLines lines).lines.getD p.line_number "").data⟩ }) := by
    unfold updateParameter
    rw [hupd]
  refine ⟨?_, ?_, ?_, ?_, ?_⟩
  · rw [hres]
  · rw [hres]
  · intro j hj
    rw [hres]
    show ((parseLines lines).lines.set p.line_number _).getD j "" = _
    simp [List.getD_eq_getElem?_getD,
      List.getElem?_set_ne (show p.line_number ≠ j from fun h => hj h.symm)]
  · intro a rest h
    exact subNumAll_skip rest h
  · intro S D rest hS hD hDd hrest
    exact subNumAll_run v.data S D rest hS hD hDd hrest

theorem claim_C6_witness :
    (updateParameter (parseLines (numScript "Count".data "5".data "9".data))
        "Count" "7").1 = true
  ∧ (updateParameter (parseLines (numScript "Count".data "5".data "9".data))
        "Count" "7").2.lines.getD 0 ""
      = (parseLines (numScript "Count".data "5".data "9".data)).lines.getD 0 "" :=
  ⟨(claim_C6_amended_number_rewrite (numScript "Count".data "5".data "9".data)
      "Count" "7" [] [] ⟨"Count", "5", 1, "number", "variables"⟩
      (by decide) (by decide) (by decide) (by decide)).1,
   (claim_C6_amended_number_rewrite (numScript "Count".data "5".data "9".data)
      "Count" "7" [] [] ⟨"Count", "5", 1, "number", "variables"⟩
      (by decide) (by decide) (by decide) (by decide)).2.2.1 0 (by decide)⟩

/-- Claim C6 counterexample: the scanned Number parameter line
`Count = 5 ; max = 9` holds a second `= <digits>` occurrence after the
first; updating `Count` to `7` rewrites both occurrences (`re.sub` without
`count=1`), yielding `Count = 7 ; max = 7`, whereas the claim (first run of
digits only, everything else untouched) requires `Count = 7 ; max = 9`. -/
theorem claim_C6_counterexample :
    (parseLines (numScript "Count".data "5".data "9".data)).parameters
      = [⟨"Count", "5", 1, "number", "variables"⟩]
  ∧ (updateParameter (parseLines (numScript "Count".data "5".data "9".data))
        "Count" "7").2.lines
      = ["$adtSession = @\x7b", "Count = 7 ; max = 7", "\x7d"]
  ∧ ("Count = 7 ; max = 7" : String) ≠ "Count = 7 ; max = 9" := by
  have hps := parseLines_numScript "Count".data "5".data "9".data
    (by decide) (by decide) (by decide) (by decide) (by decide) (by decide)
  refine ⟨hps, ?_, by decide⟩
  have hrw : rewriteLine "number" "7"
      ((parseLines (numScript "Count".data "5".data "9".data)).lines.getD 1 "")
      = some (numLine "Count".data "7".data "7".data) := by
    show some (⟨subNumAll "7".data (numLine "Count".data "5".data "9".data).data⟩ : String) = _
    rw [subNumAll_line "7".data "Count".data "5".data "9".data
      (by decide) (by decide) (by decide) (by decide) (by decide)]
  have hupd : updateParamList "Count" "7"
      (parseLines (numScript "Count".data "5".data "9".data)).parameters
      (parseLines (numScript "Count".data "5".data "9".data)).lines =
      some ([⟨"Count", "7", 1, "number", "variables"⟩],
        (parseLines (numScript "Count".data "5".data "9".data)).lines.set 1
          (numLine "Count".data "7".data "7".data)) := by
    rw [hps]
    have hsp := @updateParamList_split "Count" "7" []
      ⟨"Count", "5", 1, "number", "variables"⟩ []
      (parseLines (numScript "Count".data "5".data "9".data)).lines
      (numLine "Count".data "7".data "7".data)
      (by intro p2 hp2; simp at hp2) (by decide) hrw
    simpa using hsp
  unfold updateParameter
  rw [hupd]
  rfl


/-! ## C10: earliest match wins; other same-named parameters untouched -/

theorem takeWhile_head {p : Char → Bool} :
    ∀ {l : Chars} {c : Char} {t : Chars}, l.takeWhile p = c :: t → p c = true := by
  intro l
  induction l with
  | nil => intro c t h; simp at h
  | cons a l ih =>
    intro c t h
    by_cases ha : p a = true
    · rw [List.takeWhile_cons_of_pos ha] at h
      cases h
      exact ha
    · rw [List.takeWhile_cons_of_neg ha] at h
      cases h

theorem matchStr_name {cs n v : Chars} (h : matchStr cs = some (n, v)) :
    n = (cs.dropWhile isPySpace).takeWhile isWordChar ∧ n.isEmpty = false := by
  unfold matchStr at h
  split at h
  · simp at h
  · rename_i hne
    rw [Bool.not_eq_true] at hne
    repeat' split at h
    all_goals first
      | (cases h; exact ⟨rfl, hne⟩)
      | simp at h

theorem matchNum_name {cs n v : Chars} (h : matchNum cs = some (n, v)) :
    n = (cs.dropWhile isPySpace).takeWhile isWordChar ∧ n.isEmpty = false := by
  unfold matchNum at h
  split at h
  · simp at h
  · rename_i hne
    rw [Bool.not_eq_true] at hne
    repeat' split at h
    all_goals first
      | (cases h; exact ⟨rfl, hne⟩)
      | simp at h

theorem matchArr_name {cs n v : Chars} (h : matchArr cs = some (n, v)) :
    n = (cs.dropWhile isPySpace).takeWhile isWordChar ∧ n.isEmpty = false := by
  unfold matchArr at h
  split at h
  · simp at h
  · rename_i hne
    rw [Bool.not_eq_true] at hne
    repeat' split at h
    all_goals first
      | (cases h; exact ⟨rfl, hne⟩)
      | simp at h

theorem matchBool_name {cs n v : Chars} (h : matchBool cs = some (n, v)) :
    n = (cs.dropWhile isPySpace).takeWhile isWordChar ∧ n.isEmpty = false := by
  unfold matchBool at h
  split at h
  · simp at h
  · rename_i hne
    rw [Bool.not_eq_true] at hne
    repeat' split at h
    all_goals first
      | (cases h; exact ⟨rfl, hne⟩)
      | simp at h

theorem name_word_of_eq {n : Chars}
    (hn : n = (w : Chars).takeWhile isWordChar) (hne : n.isEmpty = false) :
    ∃ c t, n = c :: t ∧ isWordChar c = true := by
  cases hc : n with
  | nil => rw [hc] at hne; simp at hne
  | cons c t =>
    refine ⟨c, t, rfl, ?_⟩
    rw [hc] at hn
    exact takeWhile_head hn.symm

theorem parseVariableLine_name {l : String} {i : Nat} {s : String}
    {p : ScriptParameter} (h : parseVariableLine l i s = some p) :
    ∃ c t, p.name.data = c :: t ∧ isWordChar c = true := by
  revert h
  unfold parseVariableLine
  cases hS : matchStr l.data with
  | some nv =>
    obtain ⟨n, v⟩ := nv
    intro h
    cases h
    obtain ⟨hn, hne⟩ := matchStr_name hS
    exact name_word_of_eq hn hne
  | none =>
    cases hN : matchNum l.data with
    | some nv =>
      obtain ⟨n, v⟩ := nv
      intro h
      cases h
      obtain ⟨hn, hne⟩ := matchNum_name hN
      exact name_word_of_eq hn hne
    | none =>
      cases hA : matchArr l.data with
      | some nv =>
        obtain ⟨n, v⟩ := nv
        intro h
        cases h
        obtain ⟨hn, hne⟩ := matchArr_name hA
        exact name_word_of_eq hn hne
      | none =>
        cases hB : matchBool l.data with
        | some nv =>
          obtain ⟨n, v⟩ := nv
          intro h
          cases h
          obtain ⟨hn, hne⟩ := matchBool_name hB
          exact name_word_of_eq hn hne
        | none =>
          intro h
          simp at h

theorem sessionAux_line_ge :
    ∀ {ls : List String} {i : Nat} {b : Bool} {p : ScriptParameter},
      p ∈ sessionAux ls i b → i ≤ p.line_number := by
  intro ls
  induction ls with
  | nil => intro i b p h; simp [sessionAux] at h
  | cons l ls ih =>
    intro i b p h
    simp only [sessionAux] at h
    split at h
    · have := ih h; omega
    · split at h
      · have := ih h; omega
      · split at h
        · split at h
          · rename_i p0 hpv
            rcases List.mem_cons.mp h with rfl | hmem
            · have := (parseVariableLine_fields hpv).2.2
              omega
            · have := ih hmem; omega
          · have := ih h; omega
        · have := ih h; omega

theorem sessionAux_pairwise :
    ∀ (ls : List String) (i : Nat) (b : Bool),
      (sessionAux ls i b).Pairwise (fun a c => a.line_number < c.line_number) := by
  intro ls
  induction ls with
  | nil => intro i b; simp [sessionAux]
  | cons l ls ih =>
    intro i b
    simp only [sessionAux]
    split
    · exact ih (i + 1) true
    · split
      · exact ih (i + 1) false
      · split
        · split
          · rename_i p0 hpv
            rw [List.pairwise_cons]
            refine ⟨?_, ih (i + 1) true⟩
            intro c hc
            have h1 := (parseVariableLine_fields hpv).2.2
            have h2 := sessionAux_line_ge hc
            omega
          · exact ih (i + 1) true
        · exact ih (i + 1) false

theorem urlAux_pairwise :
    ∀ (ls : List String) (i : Nat),
      (urlAux ls i).Pairwise (fun a c => a.line_number < c.line_number) := by
  intro ls
  induction ls with
  | nil => intro i; simp [urlAux]
  | cons l ls ih =>
    intro i
    simp only [urlAux]
    split
    · rw [List.pairwise_cons]
      refine ⟨?_, ih (i + 1)⟩
      intro c hc
      have := (urlAux_mem hc).2
      show i < c.line_number
      omega
    · exact ih (i + 1)

theorem urlMatchAt_name :
    ∀ {cs n u : Chars}, urlMatchAt cs = some (n, u) → ∃ w, n = '$' :: w := by
  intro cs n u h
  unfold urlMatchAt at h
  repeat' split at h
  all_goals first
    | (cases h; exact ⟨_, rfl⟩)
    | simp at h

theorem urlSearch_name :
    ∀ {cs n u : Chars}, urlSearch cs = some (n, u) → ∃ w, n = '$' :: w := by
  intro cs
  induction cs with
  | nil => intro n u h; simp [urlSearch] at h
  | cons c cs ih =>
    intro n u h
    simp only [urlSearch] at h
    cases hm : urlMatchAt (c :: cs) with
    | some r =>
      rw [hm] at h
      cases h
      exact urlMatchAt_name hm
    | none =>
      rw [hm] at h
      exact ih h

theorem urlAux_name :
    ∀ {ls : List String} {i : Nat} {p : ScriptParameter},
      p ∈ urlAux ls i → ∃ w, p.name.data = '$' :: w := by
  intro ls
  induction ls with
  | nil => intro i p h; simp [urlAux] at h
  | cons l ls ih =>
    intro i p h
    simp only [urlAux] at h
    split at h
    · rename_i n u hsea
      rcases List.mem_cons.mp h with rfl | hmem
      · exact urlSearch_name hsea
      · exact ih hmem
    · exact ih h

theorem pairwise_lt_line_eq :
    ∀ {l : List ScriptParameter},
      l.Pairwise (fun a c => a.line_number < c.line_number) →
      ∀ {p p' : ScriptParameter}, p ∈ l → p' ∈ l →
        p.line_number = p'.line_number → p = p' := by
  intro l
  induction l with
  | nil => intro _ p p' hp; simp at hp
  | cons a l ih =>
    intro hpw p p' hp hp' heq
    rw [List.pairwise_cons] at hpw
    obtain ⟨ha, hl⟩ := hpw
    rcases List.mem_cons.mp hp with rfl | hp2
    · rcases List.mem_cons.mp hp' with rfl | hp2'
      · rfl
      · have := ha p' hp2'
        omega
    · rcases List.mem_cons.mp hp' with rfl | hp2'
      · have := ha p hp2
        omega
      · exact ih hl hp2 hp2' heq

theorem parseLines_same_name_distinct {lines : List String}
    {p p' : ScriptParameter}
    (hp : p ∈ (parseLines lines).parameters)
    (hp' : p' ∈ (parseLines lines).parameters)
    (hname : p'.name = p.name) (hne : p' ≠ p) :
    p'.line_number ≠ p.line_number := by
  intro heq
  have hp2 : p ∈ sessionParams lines ++ urlParams lines := hp
  have hp2' : p' ∈ sessionParams lines ++ urlParams lines := hp'
  rcases List.mem_append.mp hp2 with hs | hu
  · rcases List.mem_append.mp hp2' with hs' | hu'
    · exact hne (pairwise_lt_line_eq (sessionAux_pairwise lines 0 false) hs' hs heq)
    · obtain ⟨l0, j, hpv⟩ := sessionAux_mem hs
      obtain ⟨c, t, hcd, hcw⟩ := parseVariableLine_name hpv
      obtain ⟨w, hwd⟩ := urlAux_name hu'
      rw [hname, hcd] at hwd
      have hc : c = '$' := by injection hwd
      rw [hc] at hcw
      exact absurd hcw (by decide)
  · rcases List.mem_append.mp hp2' with hs' | hu'
    · obtain ⟨l0, j, hpv⟩ := sessionAux_mem hs'
      obtain ⟨c, t, hcd, hcw⟩ := parseVariableLine_name hpv
      obtain ⟨w, hwd⟩ := urlAux_name hu
      rw [← hname, hcd] at hwd
      have hc : c = '$' := by injection hwd
      rw [hc] at hcw
      exact absurd hcw (by decide)
    · exact hne (pairwise_lt_line_eq (urlAux_pairwise lines 0) hu' hu heq)

/-- Claim C10: when several scanned parameters answer to the requested name,
`update_parameter` rewrites only the one appearing earliest in the parameter
list — session-block parameters in line order followed by URL parameters in
line order — returns true after that single rewrite, and leaves the lines of
every other same-named parameter unchanged. -/
theorem claim_C10_first_match_wins (lines : List String) (q v : String)
    (ps₁ ps₂ : List ScriptParameter) (p : ScriptParameter)
    (hsplit : (parseLines lines).parameters = ps₁ ++ p :: ps₂)
    (hno : ∀ p' ∈ ps₁, nameMatches q p' = false)
    (hm : nameMatches q p = true) :
    (parseLines lines).parameters = sessionParams lines ++ urlParams lines
  ∧ (sessionParams lines).Pairwise (fun a c => a.line_number < c.line_number)
  ∧ (urlParams lines).Pairwise (fun a c => a.line_number < c.line_number)
  ∧ (updateParameter (parseLines lines) q v).1 = true
  ∧ (∀ j, j ≠ p.line_number →
      (updateParameter (parseLines lines) q v).2.lines.getD j ""
        = (parseLines lines).lines.getD j "")
  ∧ (∀ p' ∈ (parseLines lines).parameters, p'.name = p.name → p' ≠ p →
      (updateParameter (parseLines lines) q v).2.lines.getD p'.line_number ""
        = (parseLines lines).lines.getD p'.line_number "") := by
  have hp : p ∈ (parseLines lines).parameters := by
    rw [hsplit]
    exact List.mem_append.mpr (Or.inr (List.mem_cons_self p ps₂))
  have hkind := parseLines_params_kind hp
  have hiss := rewriteLine_isSome v
    ((parseLines lines).lines.getD p.line_number "") hkind
  obtain ⟨nl, hnl⟩ := Option.isSome_iff_exists.mp hiss
  have hupd : updateParamList q v (parseLines lines).parameters
      (parseLines lines).lines =
      some (ps₁ ++ { p with value := v } :: ps₂,
        (parseLines lines).lines.set p.line_number nl) := by
    rw [hsplit]
    exact updateParamList_split ps₁ ps₂ hno hm hnl
  have hres : updateParameter (parseLines lines) q v =
      (true, { parseLines lines with
        parameters := ps₁ ++ { p with value := v } :: ps₂,
        lines := (parseLines lines).lines.set p.line_number nl }) := by
    unfold updateParameter
    rw [hupd]
  have hother : ∀ j, j ≠ p.line_number →
      (updateParameter (parseLines lines) q v).2.lines.getD j ""
        = (parseLines lines).lines.getD j "" := by
    intro j hj
    rw [hres]
    show ((parseLines lines).lines.set p.line_number nl).getD j "" = _
    simp [List.getD_eq_getElem?_getD,
      List.getElem?_set_ne (show p.line_number ≠ j from fun h => hj h.symm)]
  refine ⟨rfl, sessionAux_pairwise lines 0 false, urlAux_pairwise lines 0, ?_, hother, ?_⟩
  · rw [hres]
  · intro p' hp' hnm hne
    exact hother p'.line_number (parseLines_same_name_distinct hp hp' hnm hne)

theorem claim_C10_witness :
    (updateParameter
      (parseLines ["$adtSession = @\x7b", "Foo = \x27a\x27", "Foo = \x27b\x27", "\x7d"])
      "Foo" "z").1 = true
  ∧ (updateParameter
      (parseLines ["$adtSession = @\x7b", "Foo = \x27a\x27", "Foo = \x27b\x27", "\x7d"])
      "Foo" "z").2.lines.getD 2 ""
    = (parseLines ["$adtSession = @\x7b", "Foo = \x27a\x27", "Foo = \x27b\x27", "\x7d"]).lines.getD 2 "" :=
  ⟨(claim_C10_first_match_wins
      ["$adtSession = @\x7b", "Foo = \x27a\x27", "Foo = \x27b\x27", "\x7d"] "Foo" "z"
      [] [⟨"Foo", "b", 2, "string", "variables"⟩]
      ⟨"Foo", "a", 1, "string", "variables"⟩
      (by decide) (by decide) (by decide)).2.2.2.1,
   (claim_C10_first_match_wins
      ["$adtSession = @\x7b", "Foo = \x27a\x27", "Foo = \x27b\x27", "\x7d"] "Foo" "z"
      [] [⟨"Foo", "b", 2, "string", "variables"⟩]
      ⟨"Foo", "a", 1, "string", "variables"⟩
      (by decide) (by decide) (by decide)).2.2.2.2.2
      ⟨"Foo", "b", 2, "string", "variables"⟩ (by decide) (by decide) (by decide)⟩

end PS1
